import Mathlib

/-!
Verification of the Zephyr compiler front-end (the `fork` repository).

This file gives a shallow embedding of the parts of the code that the
claims C1-C10 are about:

* the generic `Store` of `src/hir/store.rs` (module-scoped id generation,
  `fresh_id`, `extend`, `transmute`);
* the constraint solver of `src/mir/type_check.rs`
  (`constr_equality`, `constr_included`, `constr_return`, `build_store`);
* the MIR lowering of `src/mir/ast_to_mir.rs` (`reduce`, `reduce_fun`,
  `reduce_block_rec`, `reduce_expr`, `reduce_asm_statement`).

The data model of `src/mir/types.rs` and `src/mir/names.rs` is not part of
the source tree; those definitions are modelled from the specification
(spec.md §3, §6) and are marked `Modelled from the spec:` in their doc
comments.  Rust `u32`/`u64` arithmetic is embedded as `Nat` with explicit
`2 ^ 32` / `2 ^ 64` bounds where overflow could matter; Rust panics are
embedded as `Option`/dedicated outcome constructors.
-/

namespace Zephyr

-- ————————————————————————— Concrete types (spec §3) ————————————————————————— --

/-- Modelled from the spec: the concrete type enum of the missing
`src/mir/types.rs`.  Spec §3: "Tagged variants: `Any` (placeholder during
inference), `Bug` (poisoned), `Unit`, `Bool`, `I32`, `I64`, `F32`, `F64`,
`Fun(params: list<Type>, returns: list<Type>)`." -/
inductive Ty where
  | any
  | bug
  | unit
  | bool
  | i32
  | i64
  | f32
  | f64
  | fn (params ret : List Ty)

/-- Discriminant of a `Ty`, following the declaration order of the variants. -/
def Ty.tag : Ty → Nat
  | .any => 0
  | .bug => 1
  | .unit => 2
  | .bool => 3
  | .i32 => 4
  | .i64 => 5
  | .f32 => 6
  | .f64 => 7
  | .fn _ _ => 8

/-- Whether a `Ty` is a function type. -/
def Ty.isFn : Ty → Bool
  | .fn _ _ => true
  | _ => false

mutual
/-- Modelled from the spec: "A total ordering over variants supports the
sorted-list intersection used by the solver" (spec §3).  Variants compare by
declaration order; function types compare lexicographically by parameter
list, then return list (the behaviour of a derived `Ord`). -/
def Ty.cmp : Ty → Ty → Ordering
  | .fn p1 r1, .fn p2 r2 => (Ty.cmpList p1 p2).then (Ty.cmpList r1 r2)
  | a, b => compare a.tag b.tag

/-- Lexicographic comparison of lists of types (derived `Ord` on `Vec<Type>`). -/
def Ty.cmpList : List Ty → List Ty → Ordering
  | [], [] => .eq
  | [], _ :: _ => .lt
  | _ :: _, [] => .gt
  | a :: as, b :: bs => (Ty.cmp a b).then (Ty.cmpList as bs)
end

theorem Ty.tag_le_eight (a : Ty) : a.tag ≤ 8 := by
  cases a <;> simp [Ty.tag]

theorem Ty.tag_eq_eight_iff (a : Ty) : a.tag = 8 ↔ a.isFn = true := by
  cases a <;> simp [Ty.tag, Ty.isFn]

theorem Ty.tag_inj (a b : Ty) (hfn : ¬(a.isFn = true ∧ b.isFn = true))
    (h : a.tag = b.tag) : a = b := by
  cases a <;> cases b <;> simp_all [Ty.tag, Ty.isFn]

theorem Ty.cmp_of_not_fn (a b : Ty) (h : ¬(a.isFn = true ∧ b.isFn = true)) :
    Ty.cmp a b = compare a.tag b.tag := by
  cases a <;> cases b <;> simp_all [Ty.cmp, Ty.isFn]

theorem Ty.cmp_fn_fn (p1 r1 p2 r2 : List Ty) :
    Ty.cmp (.fn p1 r1) (.fn p2 r2) = (Ty.cmpList p1 p2).then (Ty.cmpList r1 r2) := rfl

mutual
theorem Ty.cmp_eq_iff : ∀ a b : Ty, Ty.cmp a b = .eq ↔ a = b
  | .fn p1 r1, .fn p2 r2 => by
    have h1 := Ty.cmpList_eq_iff p1 p2
    have h2 := Ty.cmpList_eq_iff r1 r2
    rw [Ty.cmp_fn_fn, Ordering.then_eq_eq]
    simp [h1, h2]
  | .any, b => by cases b <;> simp [Ty.cmp, Ty.tag, Nat.compare_eq_eq]
  | .bug, b => by cases b <;> simp [Ty.cmp, Ty.tag, Nat.compare_eq_eq]
  | .unit, b => by cases b <;> simp [Ty.cmp, Ty.tag, Nat.compare_eq_eq]
  | .bool, b => by cases b <;> simp [Ty.cmp, Ty.tag, Nat.compare_eq_eq]
  | .i32, b => by cases b <;> simp [Ty.cmp, Ty.tag, Nat.compare_eq_eq]
  | .i64, b => by cases b <;> simp [Ty.cmp, Ty.tag, Nat.compare_eq_eq]
  | .f32, b => by cases b <;> simp [Ty.cmp, Ty.tag, Nat.compare_eq_eq]
  | .f64, b => by cases b <;> simp [Ty.cmp, Ty.tag, Nat.compare_eq_eq]
  | .fn p1 r1, .any => by simp [Ty.cmp, Ty.tag, Nat.compare_eq_eq]
  | .fn p1 r1, .bug => by simp [Ty.cmp, Ty.tag, Nat.compare_eq_eq]
  | .fn p1 r1, .unit => by simp [Ty.cmp, Ty.tag, Nat.compare_eq_eq]
  | .fn p1 r1, .bool => by simp [Ty.cmp, Ty.tag, Nat.compare_eq_eq]
  | .fn p1 r1, .i32 => by simp [Ty.cmp, Ty.tag, Nat.compare_eq_eq]
  | .fn p1 r1, .i64 => by simp [Ty.cmp, Ty.tag, Nat.compare_eq_eq]
  | .fn p1 r1, .f32 => by simp [Ty.cmp, Ty.tag, Nat.compare_eq_eq]
  | .fn p1 r1, .f64 => by simp [Ty.cmp, Ty.tag, Nat.compare_eq_eq]

theorem Ty.cmpList_eq_iff : ∀ l1 l2 : List Ty, Ty.cmpList l1 l2 = .eq ↔ l1 = l2
  | [], [] => by simp [Ty.cmpList]
  | [], _ :: _ => by simp [Ty.cmpList]
  | _ :: _, [] => by simp [Ty.cmpList]
  | a :: as, b :: bs => by
    have h1 := Ty.cmp_eq_iff a b
    have h2 := Ty.cmpList_eq_iff as bs
    show (Ty.cmp a b).then (Ty.cmpList as bs) = .eq ↔ _
    rw [Ordering.then_eq_eq]
    simp [h1, h2]
end

instance : DecidableEq Ty := fun a b =>
  decidable_of_iff (Ty.cmp a b = .eq) (Ty.cmp_eq_iff a b)

mutual
theorem Ty.cmp_swap : ∀ a b : Ty, (Ty.cmp a b).swap = Ty.cmp b a
  | .fn p1 r1, .fn p2 r2 => by
    have h1 := Ty.cmpList_swap p1 p2
    have h2 := Ty.cmpList_swap r1 r2
    rw [Ty.cmp_fn_fn, Ty.cmp_fn_fn, Ordering.swap_then, h1, h2]
  | .any, b => by cases b <;> simp [Ty.cmp, Nat.compare_swap]
  | .bug, b => by cases b <;> simp [Ty.cmp, Nat.compare_swap]
  | .unit, b => by cases b <;> simp [Ty.cmp, Nat.compare_swap]
  | .bool, b => by cases b <;> simp [Ty.cmp, Nat.compare_swap]
  | .i32, b => by cases b <;> simp [Ty.cmp, Nat.compare_swap]
  | .i64, b => by cases b <;> simp [Ty.cmp, Nat.compare_swap]
  | .f32, b => by cases b <;> simp [Ty.cmp, Nat.compare_swap]
  | .f64, b => by cases b <;> simp [Ty.cmp, Nat.compare_swap]
  | .fn p1 r1, .any => by simp [Ty.cmp, Nat.compare_swap]
  | .fn p1 r1, .bug => by simp [Ty.cmp, Nat.compare_swap]
  | .fn p1 r1, .unit => by simp [Ty.cmp, Nat.compare_swap]
  | .fn p1 r1, .bool => by simp [Ty.cmp, Nat.compare_swap]
  | .fn p1 r1, .i32 => by simp [Ty.cmp, Nat.compare_swap]
  | .fn p1 r1, .i64 => by simp [Ty.cmp, Nat.compare_swap]
  | .fn p1 r1, .f32 => by simp [Ty.cmp, Nat.compare_swap]
  | .fn p1 r1, .f64 => by simp [Ty.cmp, Nat.compare_swap]

theorem Ty.cmpList_swap : ∀ l1 l2 : List Ty, (Ty.cmpList l1 l2).swap = Ty.cmpList l2 l1
  | [], [] => by simp [Ty.cmpList, Ordering.swap]
  | [], _ :: _ => by simp [Ty.cmpList, Ordering.swap]
  | _ :: _, [] => by simp [Ty.cmpList, Ordering.swap]
  | a :: as, b :: bs => by
    have h1 := Ty.cmp_swap a b
    have h2 := Ty.cmpList_swap as bs
    show ((Ty.cmp a b).then (Ty.cmpList as bs)).swap = (Ty.cmp b a).then (Ty.cmpList bs as)
    rw [Ordering.swap_then, h1, h2]
end

theorem Ty.isFn_iff (a : Ty) : a.isFn = true ↔ ∃ p r, a = .fn p r := by
  cases a <;> simp [Ty.isFn]

mutual
theorem Ty.cmp_trans : ∀ a b c : Ty,
    Ty.cmp a b = .lt → Ty.cmp b c = .lt → Ty.cmp a c = .lt
  | a, b, c, hab, hbc => by
    by_cases ha : a.isFn = true <;> by_cases hb : b.isFn = true <;>
      by_cases hc : c.isFn = true
    · -- all three are function types: lexicographic transitivity
      obtain ⟨p1, r1, rfl⟩ := Ty.isFn_iff a |>.mp ha
      obtain ⟨p2, r2, rfl⟩ := Ty.isFn_iff b |>.mp hb
      obtain ⟨p3, r3, rfl⟩ := Ty.isFn_iff c |>.mp hc
      rw [Ty.cmp_fn_fn, Ordering.then_eq_lt] at hab hbc ⊢
      rcases hab with h12 | ⟨h12, h12r⟩ <;> rcases hbc with h23 | ⟨h23, h23r⟩
      · exact Or.inl (Ty.cmpList_trans p1 p2 p3 h12 h23)
      · rw [Ty.cmpList_eq_iff] at h23
        subst h23
        exact Or.inl h12
      · rw [Ty.cmpList_eq_iff] at h12
        subst h12
        exact Or.inl h23
      · rw [Ty.cmpList_eq_iff] at h12 h23
        subst h12
        subst h23
        exact Or.inr ⟨Ty.cmpList_eq_iff _ _ |>.mpr rfl,
          Ty.cmpList_trans r1 r2 r3 h12r h23r⟩
    · -- b is a function type but c is not: `cmp b c = lt` is impossible
      rw [Ty.cmp_of_not_fn b c (by simp [hc]), Nat.compare_eq_lt] at hbc
      have h8 := Ty.tag_eq_eight_iff b |>.mpr hb
      have hle := Ty.tag_le_eight c
      omega
    · -- a is a function type but b is not: `cmp a b = lt` is impossible
      rw [Ty.cmp_of_not_fn a b (by simp [hb]), Nat.compare_eq_lt] at hab
      have h8 := Ty.tag_eq_eight_iff a |>.mpr ha
      have hle := Ty.tag_le_eight b
      omega
    · rw [Ty.cmp_of_not_fn a b (by simp [hb]), Nat.compare_eq_lt] at hab
      have h8 := Ty.tag_eq_eight_iff a |>.mpr ha
      have hle := Ty.tag_le_eight b
      omega
    · -- a not a function, c a function: tags give the result directly
      rw [Ty.cmp_of_not_fn a c (by simp [ha]), Nat.compare_eq_lt]
      have h8 := Ty.tag_eq_eight_iff c |>.mpr hc
      have hlt : a.tag ≠ 8 := fun h => ha (Ty.tag_eq_eight_iff a |>.mp h)
      have hle := Ty.tag_le_eight a
      omega
    · rw [Ty.cmp_of_not_fn b c (by simp [hc]), Nat.compare_eq_lt] at hbc
      have h8 := Ty.tag_eq_eight_iff b |>.mpr hb
      have hle := Ty.tag_le_eight c
      omega
    · rw [Ty.cmp_of_not_fn a c (by simp [ha]), Nat.compare_eq_lt]
      have h8 := Ty.tag_eq_eight_iff c |>.mpr hc
      have hlt : a.tag ≠ 8 := fun h => ha (Ty.tag_eq_eight_iff a |>.mp h)
      have hle := Ty.tag_le_eight a
      omega
    · -- none is a function type: transitivity of `Nat.compare`
      rw [Ty.cmp_of_not_fn a b (by simp [ha]), Nat.compare_eq_lt] at hab
      rw [Ty.cmp_of_not_fn b c (by simp [hb]), Nat.compare_eq_lt] at hbc
      rw [Ty.cmp_of_not_fn a c (by simp [ha]), Nat.compare_eq_lt]
      omega
termination_by a b c => sizeOf a + sizeOf b + sizeOf c

theorem Ty.cmpList_trans : ∀ l1 l2 l3 : List Ty,
    Ty.cmpList l1 l2 = .lt → Ty.cmpList l2 l3 = .lt → Ty.cmpList l1 l3 = .lt
  | [], [], [], h12, _ => by simp [Ty.cmpList] at h12
  | [], [], _ :: _, _, _ => by simp [Ty.cmpList]
  | [], _ :: _, [], _, h23 => by simp [Ty.cmpList] at h23
  | [], _ :: _, _ :: _, _, _ => by simp [Ty.cmpList]
  | _ :: _, [], _, h12, _ => by simp [Ty.cmpList] at h12
  | _ :: _, _ :: _, [], _, h23 => by simp [Ty.cmpList] at h23
  | a :: as, b :: bs, c :: cs, h12, h23 => by
    simp only [Ty.cmpList] at h12 h23 ⊢
    rw [Ordering.then_eq_lt] at h12 h23 ⊢
    rcases h12 with h12 | ⟨h12, h12t⟩ <;> rcases h23 with h23 | ⟨h23, h23t⟩
    · exact Or.inl (Ty.cmp_trans a b c h12 h23)
    · rw [Ty.cmp_eq_iff] at h23
      subst h23
      exact Or.inl h12
    · rw [Ty.cmp_eq_iff] at h12
      subst h12
      exact Or.inl h23
    · rw [Ty.cmp_eq_iff] at h12 h23
      subst h12
      subst h23
      exact Or.inr ⟨Ty.cmp_eq_iff _ _ |>.mpr rfl, Ty.cmpList_trans as bs cs h12t h23t⟩
termination_by l1 l2 l3 => sizeOf l1 + sizeOf l2 + sizeOf l3
end

/-- Strict order on types induced by `Ty.cmp`. -/
def TyLt (a b : Ty) : Prop := Ty.cmp a b = .lt

instance : DecidableRel TyLt := fun a b =>
  inferInstanceAs (Decidable (Ty.cmp a b = .lt))

theorem TyLt.ne {a b : Ty} (h : TyLt a b) : a ≠ b := by
  intro heq
  rw [heq, TyLt, Ty.cmp_eq_iff b b |>.mpr rfl] at h
  cases h

theorem TyLt.trans {a b c : Ty} (h1 : TyLt a b) (h2 : TyLt b c) : TyLt a c :=
  Ty.cmp_trans a b c h1 h2

theorem Ty.cmp_gt_iff_lt (a b : Ty) : Ty.cmp a b = .gt ↔ Ty.cmp b a = .lt := by
  rw [← Ty.cmp_swap b a]
  cases Ty.cmp b a <;> simp [Ordering.swap]

-- —————————————— Type variables, constraints, error handler ——————————————— --

/-- Modelled from the spec: a type variable "holds: the source location that
introduced it, and a sorted candidate list of concrete types" (spec §3).
Source locations are abstracted as numbers. -/
structure TypeVar where
  loc : Nat
  types : List Ty

/-- Modelled from the spec: the store of type variables of the missing
`src/mir/types.rs` — type variables are indexed by `usize` ids in emission
order; `get` reads a variable and `replace` overwrites its candidate list
(keeping its location). -/
structure TypeVarStore where
  vars : List TypeVar

def TypeVarStore.get (s : TypeVarStore) (i : Nat) : TypeVar :=
  s.vars.getD i ⟨0, []⟩

def TypeVarStore.replace (s : TypeVarStore) (i : Nat) (t : List Ty) : TypeVarStore :=
  ⟨s.vars.set i ⟨(s.get i).loc, t⟩⟩

/-- Modelled from the spec: the three constraint kinds of spec §3, holding
type-variable ids (as in the `match` of `TypeChecker::apply_constr`). -/
inductive TypeConstraint where
  | equality (a b : Nat)
  | included (a b : Nat)
  | ret (tFun t : Nat)

/-- One diagnostic recorded through the error-handler interface: a location
(a plain number; `report_line(0, _)` records location 0) and the message. -/
abbrev Diag := Nat × String

/-- Total number of type candidates over all type variables of a store. -/
def totalCandidates (s : TypeVarStore) : Nat :=
  (s.vars.map (fun v => v.types.length)).sum

-- ———————————————— The solver of src/mir/type_check.rs ———————————————— --

/-- The sorted-list intersection loop shared by `constr_equality` and
`constr_included` (src/mir/type_check.rs, the `while idx_1 < t_1.len() &&
idx_2 < t_2.len()` loop).  Returns the merged list together with two flags:
whether the `Less` branch (an element of the first list skipped) and
whether the `Greater` branch (an element of the second list skipped) was
ever taken.  `constr_equality` sets its progress flag on both branches,
`constr_included` only on `Less`. -/
def interMerge : List Ty → List Ty → List Ty × Bool × Bool
  | a :: as, b :: bs =>
    match Ty.cmp a b with
    | .lt => let r := interMerge as (b :: bs); (r.1, true, r.2.2)
    | .gt => let r := interMerge (a :: as) bs; (r.1, r.2.1, true)
    | .eq => let r := interMerge as bs; (a :: r.1, r.2.1, r.2.2)
  | _, _ => ([], false, false)
termination_by l1 l2 => l1.length + l2.length

/-- Embedding of `TypeChecker::constr_equality` (src/mir/type_check.rs
lines 96-143).  Returns the updated store, the diagnostics reported during
this call, and the progress flag. -/
def constrEquality (tId1 tId2 : Nat) (store : TypeVarStore) :
    TypeVarStore × List Diag × Bool :=
  let t1 := (store.get tId1).types
  let t2 := (store.get tId2).types
  if t1.head? = some Ty.any then
    if t2.head? = some Ty.any then (store, [], false)
    else (store.replace tId1 t2, [], true)
  else if t2.head? = some Ty.any then
    (store.replace tId2 t1, [], true)
  else if t1.length = 0 ∨ t2.length = 0 then
    (store, [((store.get tId1).loc, "Could not infer a type satisfying constraints")], false)
  else
    let r := interMerge t1 t2
    let progress := decide (t1.length ≠ t2.length) || r.2.1 || r.2.2
    ((store.replace tId1 r.1).replace tId2 r.1, [], progress)

/-- Embedding of `TypeChecker::constr_included` (src/mir/type_check.rs
lines 145-182). -/
def constrIncluded (tId1 tId2 : Nat) (store : TypeVarStore) :
    TypeVarStore × List Diag × Bool :=
  let t1 := (store.get tId1).types
  let t2 := (store.get tId2).types
  if t1.head? = some Ty.any then
    if t2.head? = some Ty.any then (store, [], false)
    else (store.replace tId1 t2, [], true)
  else
    let r := interMerge t1 t2
    (store.replace tId1 r.1, [], r.2.1)

/-- Embedding of `TypeChecker::constr_return` (src/mir/type_check.rs
lines 184-228).  The `for` loop that searches `ts.types` for an element
equal to `ret_t` is rendered as a membership test: the element it finds is
`ret_t` itself. -/
def constrReturn (tIdFun tId : Nat) (store : TypeVarStore) :
    TypeVarStore × List Diag × Bool :=
  let tFun := store.get tIdFun
  let ts := store.get tId
  match tFun.types with
  | [Ty.fn _ retTs] =>
    match retTs with
    | [retT] =>
      if retT ∈ ts.types then
        (store.replace tId [retT], [], decide (ts.types.length > 1))
      else
        (store, [(ts.loc, "Return value has wrong type")], false)
    | _ =>
      (store, [(tFun.loc, "Function returning multiple values are not yet supported")], false)
  | [_] =>
    (store, [(tFun.loc, "Return type constraint used on a non function type")], false)
  | _ =>
    (store, [(tFun.loc, "Return type constraint with ambiguous fun type")], false)

/-- Embedding of `TypeChecker::apply_constr` (src/mir/type_check.rs). -/
def applyConstr (c : TypeConstraint) (store : TypeVarStore) :
    TypeVarStore × List Diag × Bool :=
  match c with
  | .equality a b => constrEquality a b store
  | .included a b => constrIncluded a b store
  | .ret f r => constrReturn f r store

/-- A resolved type store (`TypeStore` of the missing `src/mir/types.rs`);
`put` appends, so it is a list of resolved types in variable order. -/
abbrev TypeStore := List Ty

/-- Modelled from the spec: `T_ID_INTEGER`, the id of the canonical integer
type variable pre-seeded by the resolver with the candidates {I32, I64}
(spec §4.1); the missing `src/mir/types.rs` fixes it at a constant index,
modelled here as 0. -/
def T_ID_INTEGER : Nat := 0

/-- Embedding of `TypeChecker::build_store` (src/mir/type_check.rs lines
50-72): the defaulting pass run after the fixed point. -/
def buildStore (varStore : TypeVarStore) : TypeStore × List Diag :=
  let integers := varStore.get T_ID_INTEGER
  varStore.vars.foldl
    (fun acc var =>
      match var.types with
      | [t] => (acc.1 ++ [t], acc.2)
      | [] => (acc.1, acc.2 ++ [(0, "Could not find a type satisfying constraint")])
      | _ =>
        if var.types = integers.types then (acc.1 ++ [Ty.i64], acc.2)
        else (acc.1, acc.2 ++ [(0, "Could not infer type")]))
    ([], [])

-- ———————————————————— Properties of the merge loop ———————————————————— --

theorem interMerge_nil_left (l2 : List Ty) : interMerge [] l2 = ([], false, false) := by
  cases l2 <;> simp [interMerge]

theorem interMerge_nil_right (l1 : List Ty) : interMerge l1 [] = ([], false, false) := by
  cases l1 <;> simp [interMerge]

theorem interMerge_cons_lt {a b : Ty} (as bs : List Ty) (h : Ty.cmp a b = .lt) :
    interMerge (a :: as) (b :: bs) =
      ((interMerge as (b :: bs)).1, true, (interMerge as (b :: bs)).2.2) := by
  simp [interMerge, h]

theorem interMerge_cons_gt {a b : Ty} (as bs : List Ty) (h : Ty.cmp a b = .gt) :
    interMerge (a :: as) (b :: bs) =
      ((interMerge (a :: as) bs).1, (interMerge (a :: as) bs).2.1, true) := by
  simp [interMerge, h]

theorem interMerge_cons_eq {a b : Ty} (as bs : List Ty) (h : Ty.cmp a b = .eq) :
    interMerge (a :: as) (b :: bs) =
      (a :: (interMerge as bs).1, (interMerge as bs).2.1, (interMerge as bs).2.2) := by
  simp [interMerge, h]

theorem interMerge_degenerate (l1 l2 : List Ty)
    (h : ∀ (x : Ty) (xs : List Ty) (y : Ty) (ys : List Ty),
      l1 = x :: xs → l2 = y :: ys → False) :
    interMerge l1 l2 = ([], false, false) := by
  match l1, l2 with
  | [], l2 => exact interMerge_nil_left l2
  | l1, [] => exact interMerge_nil_right l1
  | a :: as, b :: bs => exact (h a as b bs rfl rfl).elim

theorem interMerge_length_le : ∀ l1 l2 : List Ty,
    (interMerge l1 l2).1.length ≤ l1.length ∧ (interMerge l1 l2).1.length ≤ l2.length := by
  intro l1 l2
  induction l1, l2 using interMerge.induct with
  | case1 a as b bs h ih =>
    rw [interMerge_cons_lt as bs h]
    simp only [List.length_cons] at ih ⊢
    omega
  | case2 a as b bs h ih =>
    rw [interMerge_cons_gt as bs h]
    simp only [List.length_cons] at ih ⊢
    omega
  | case3 a as b bs h ih =>
    rw [interMerge_cons_eq as bs h]
    simp only [List.length_cons] at ih ⊢
    omega
  | case4 l1 l2 h =>
    rw [interMerge_degenerate l1 l2 h]
    simp

theorem interMerge_skip_left : ∀ l1 l2 : List Ty,
    (interMerge l1 l2).2.1 = true → (interMerge l1 l2).1.length < l1.length := by
  intro l1 l2
  induction l1, l2 using interMerge.induct with
  | case1 a as b bs h ih =>
    intro _
    rw [interMerge_cons_lt as bs h]
    have := (interMerge_length_le as (b :: bs)).1
    simp only [List.length_cons]
    omega
  | case2 a as b bs h ih =>
    rw [interMerge_cons_gt as bs h]
    exact ih
  | case3 a as b bs h ih =>
    rw [interMerge_cons_eq as bs h]
    simp only [List.length_cons]
    intro hs
    exact Nat.succ_lt_succ (ih hs)
  | case4 l1 l2 h =>
    rw [interMerge_degenerate l1 l2 h]
    simp

theorem interMerge_skip_right : ∀ l1 l2 : List Ty,
    (interMerge l1 l2).2.2 = true → (interMerge l1 l2).1.length < l2.length := by
  intro l1 l2
  induction l1, l2 using interMerge.induct with
  | case1 a as b bs h ih =>
    rw [interMerge_cons_lt as bs h]
    exact ih
  | case2 a as b bs h ih =>
    intro _
    rw [interMerge_cons_gt as bs h]
    have := (interMerge_length_le (a :: as) bs).2
    simp only [List.length_cons]
    omega
  | case3 a as b bs h ih =>
    rw [interMerge_cons_eq as bs h]
    simp only [List.length_cons]
    intro hs
    exact Nat.succ_lt_succ (ih hs)
  | case4 l1 l2 h =>
    rw [interMerge_degenerate l1 l2 h]
    simp

theorem interMerge_no_skip : ∀ l1 l2 : List Ty,
    (interMerge l1 l2).2.1 = false → (interMerge l1 l2).2.2 = false →
    (interMerge l1 l2).1.length = min l1.length l2.length := by
  intro l1 l2
  induction l1, l2 using interMerge.induct with
  | case1 a as b bs h ih =>
    rw [interMerge_cons_lt as bs h]
    intro hs
    cases hs
  | case2 a as b bs h ih =>
    rw [interMerge_cons_gt as bs h]
    intro _ hs
    cases hs
  | case3 a as b bs h ih =>
    rw [interMerge_cons_eq as bs h]
    simp only [List.length_cons]
    intro h1 h2
    rw [ih h1 h2]
    omega
  | case4 l1 l2 h =>
    intro _ _
    rw [interMerge_degenerate l1 l2 h]
    match l1, l2 with
    | [], l2 => simp
    | l1, [] => simp
    | a :: as, b :: bs => exact (h a as b bs rfl rfl).elim

theorem interMerge_eq_filter : ∀ l1 l2 : List Ty,
    l1.Pairwise TyLt → l2.Pairwise TyLt →
    (interMerge l1 l2).1 = l1.filter (fun x => decide (x ∈ l2)) := by
  intro l1 l2
  induction l1, l2 using interMerge.induct with
  | case1 a as b bs h ih =>
    intro h1 h2
    rw [interMerge_cons_lt as bs h, ih (List.pairwise_cons.mp h1).2 h2]
    have hnot : ¬(a ∈ b :: bs) := by
      intro hmem
      rcases List.mem_cons.mp hmem with heq | hmem
      · exact TyLt.ne h heq
      · exact TyLt.ne (TyLt.trans h ((List.pairwise_cons.mp h2).1 a hmem)) rfl
    rw [List.filter_cons]
    simp [hnot]
  | case2 a as b bs h ih =>
    intro h1 h2
    rw [interMerge_cons_gt as bs h, ih h1 (List.pairwise_cons.mp h2).2]
    apply List.filter_congr
    intro x hx
    have hbx : TyLt b x := by
      rcases List.mem_cons.mp hx with heq | hx2
      · rw [heq]
        exact Ty.cmp_gt_iff_lt a b |>.mp h
      · exact TyLt.trans (Ty.cmp_gt_iff_lt a b |>.mp h) ((List.pairwise_cons.mp h1).1 x hx2)
    have hxb : x ≠ b := fun heq => TyLt.ne hbx heq.symm
    simp [List.mem_cons, hxb]
  | case3 a as b bs h ih =>
    intro h1 h2
    have hab : a = b := Ty.cmp_eq_iff a b |>.mp h
    rw [interMerge_cons_eq as bs h, ih (List.pairwise_cons.mp h1).2 (List.pairwise_cons.mp h2).2]
    have hcond : a ∈ b :: bs := by
      rw [hab]
      exact List.mem_cons_self b bs
    rw [List.filter_cons]
    simp only [hcond, decide_eq_true_eq, if_pos]
    congr 1
    apply List.filter_congr
    intro x hx
    have hax : TyLt a x := (List.pairwise_cons.mp h1).1 x hx
    have hxb : x ≠ b := fun heq => TyLt.ne hax (by rw [heq, hab])
    simp [List.mem_cons, hxb]
  | case4 l1 l2 h =>
    intro _ _
    rw [interMerge_degenerate l1 l2 h]
    match l1, l2 with
    | [], l2 => simp
    | a :: as, [] => simp
    | a :: as, b :: bs => exact (h a as b bs rfl rfl).elim

-- ———————————————— Store access lemmas and candidate totals ———————————————— --

theorem getD_set_self {α : Type} : ∀ (l : List α) (i : Nat) (a d : α),
    i < l.length → (l.set i a).getD i d = a
  | [], i, a, d, h => by simp at h
  | x :: xs, 0, a, d, _ => rfl
  | x :: xs, i + 1, a, d, h =>
    getD_set_self xs i a d (by simpa using h)

theorem getD_set_ne {α : Type} : ∀ (l : List α) (i j : Nat) (a d : α),
    j ≠ i → (l.set i a).getD j d = l.getD j d
  | [], i, j, a, d, _ => rfl
  | x :: xs, 0, 0, a, d, h => absurd rfl h
  | x :: xs, 0, j + 1, a, d, _ => rfl
  | x :: xs, i + 1, 0, a, d, _ => rfl
  | x :: xs, i + 1, j + 1, a, d, h =>
    getD_set_ne xs i j a d (fun he => h (by rw [he]))

theorem set_of_length_le {α : Type} : ∀ (l : List α) (i : Nat) (a : α),
    l.length ≤ i → l.set i a = l
  | [], _, _, _ => rfl
  | x :: xs, 0, a, h => by simp at h
  | x :: xs, i + 1, a, h => by
    show x :: xs.set i a = x :: xs
    rw [set_of_length_le xs i a (by simpa using h)]

theorem TypeVarStore.get_replace (s : TypeVarStore) (i : Nat) (ts : List Ty) (j : Nat) :
    (s.replace i ts).get j =
      if j = i ∧ i < s.vars.length then ⟨(s.get i).loc, ts⟩ else s.get j := by
  by_cases hj : j = i
  · subst hj
    by_cases hlen : j < s.vars.length
    · rw [if_pos ⟨rfl, hlen⟩]
      exact getD_set_self s.vars j ⟨(s.get j).loc, ts⟩ ⟨0, []⟩ hlen
    · simp only [hlen, and_false, if_false]
      show (s.vars.set j _).getD j _ = _
      rw [set_of_length_le s.vars j _ (by omega)]
      rfl
  · simp only [hj, false_and, if_false]
    exact getD_set_ne s.vars i j _ ⟨0, []⟩ hj

theorem sum_lengths_set_le : ∀ (l : List TypeVar) (i : Nat) (tv : TypeVar),
    tv.types.length ≤ ((l.getD i ⟨0, []⟩).types).length →
    ((l.set i tv).map (fun v => v.types.length)).sum ≤
      (l.map (fun v => v.types.length)).sum
  | [], _, _, _ => Nat.le_refl _
  | x :: xs, 0, tv, h => by
    simp only [List.set, List.map_cons, List.sum_cons]
    have : tv.types.length ≤ x.types.length := h
    omega
  | x :: xs, i + 1, tv, h => by
    simp only [List.set, List.map_cons, List.sum_cons]
    have := sum_lengths_set_le xs i tv h
    omega

theorem totalCandidates_replace_le (s : TypeVarStore) (i : Nat) (ts : List Ty)
    (h : ts.length ≤ (s.get i).types.length) :
    totalCandidates (s.replace i ts) ≤ totalCandidates s :=
  sum_lengths_set_le s.vars i ⟨(s.get i).loc, ts⟩ h

/-- Whether the `Any`-propagation special case of `constr_equality` or
`constr_included` fires on a constraint in a given store: exactly one side
of an equality has an `Any`-headed candidate list, or the left side of an
inclusion has one and the right side does not. -/
def anyPropFires : TypeConstraint → TypeVarStore → Prop
  | .equality a b, s =>
      ((s.get a).types.head? = some Ty.any ∧ (s.get b).types.head? ≠ some Ty.any) ∨
      ((s.get a).types.head? ≠ some Ty.any ∧ (s.get b).types.head? = some Ty.any)
  | .included a b, s =>
      (s.get a).types.head? = some Ty.any ∧ (s.get b).types.head? ≠ some Ty.any
  | .ret _ _, _ => False

-- —————————————— Branch lemmas for the two narrowing constraints —————————————— --

theorem constrEquality_any_any (a b : Nat) (s : TypeVarStore)
    (h1 : (s.get a).types.head? = some Ty.any)
    (h2 : (s.get b).types.head? = some Ty.any) :
    constrEquality a b s = (s, [], false) := by
  simp only [constrEquality]
  rw [if_pos h1, if_pos h2]

theorem constrEquality_any_left (a b : Nat) (s : TypeVarStore)
    (h1 : (s.get a).types.head? = some Ty.any)
    (h2 : (s.get b).types.head? ≠ some Ty.any) :
    constrEquality a b s = (s.replace a (s.get b).types, [], true) := by
  simp only [constrEquality]
  rw [if_pos h1, if_neg h2]

theorem constrEquality_any_right (a b : Nat) (s : TypeVarStore)
    (h1 : (s.get a).types.head? ≠ some Ty.any)
    (h2 : (s.get b).types.head? = some Ty.any) :
    constrEquality a b s = (s.replace b (s.get a).types, [], true) := by
  simp only [constrEquality]
  rw [if_neg h1, if_pos h2]

theorem constrEquality_empty (a b : Nat) (s : TypeVarStore)
    (h1 : (s.get a).types.head? ≠ some Ty.any)
    (h2 : (s.get b).types.head? ≠ some Ty.any)
    (h3 : (s.get a).types.length = 0 ∨ (s.get b).types.length = 0) :
    constrEquality a b s =
      (s, [((s.get a).loc, "Could not infer a type satisfying constraints")], false) := by
  simp only [constrEquality]
  rw [if_neg h1, if_neg h2, if_pos h3]

theorem constrEquality_main (a b : Nat) (s : TypeVarStore)
    (h1 : (s.get a).types.head? ≠ some Ty.any)
    (h2 : (s.get b).types.head? ≠ some Ty.any)
    (h3 : ¬((s.get a).types.length = 0 ∨ (s.get b).types.length = 0)) :
    constrEquality a b s =
      ((s.replace a (interMerge (s.get a).types (s.get b).types).1).replace b
          (interMerge (s.get a).types (s.get b).types).1,
        [],
        decide ((s.get a).types.length ≠ (s.get b).types.length) ||
          (interMerge (s.get a).types (s.get b).types).2.1 ||
          (interMerge (s.get a).types (s.get b).types).2.2) := by
  simp only [constrEquality]
  rw [if_neg h1, if_neg h2, if_neg h3]

theorem constrIncluded_any_any (a b : Nat) (s : TypeVarStore)
    (h1 : (s.get a).types.head? = some Ty.any)
    (h2 : (s.get b).types.head? = some Ty.any) :
    constrIncluded a b s = (s, [], false) := by
  simp only [constrIncluded]
  rw [if_pos h1, if_pos h2]

theorem constrIncluded_any_left (a b : Nat) (s : TypeVarStore)
    (h1 : (s.get a).types.head? = some Ty.any)
    (h2 : (s.get b).types.head? ≠ some Ty.any) :
    constrIncluded a b s = (s.replace a (s.get b).types, [], true) := by
  simp only [constrIncluded]
  rw [if_pos h1, if_neg h2]

theorem constrIncluded_main (a b : Nat) (s : TypeVarStore)
    (h1 : (s.get a).types.head? ≠ some Ty.any) :
    constrIncluded a b s =
      (s.replace a (interMerge (s.get a).types (s.get b).types).1, [],
        (interMerge (s.get a).types (s.get b).types).2.1) := by
  simp only [constrIncluded]
  rw [if_neg h1]

-- —————————————————————————— Claim C3 —————————————————————————— --

/-- C3 (amended): for every constraint application in which the
`Any`-propagation special case does not fire, the total number of
candidates summed over all type variables is non-increasing.  (The frozen
claim, which asserts this for every application, fails exactly on the
special case; see the counterexample.) -/
theorem c3_apply_constr_total_nonincreasing (c : TypeConstraint) (s : TypeVarStore)
    (h : ¬ anyPropFires c s) :
    totalCandidates (applyConstr c s).1 ≤ totalCandidates s := by
  match c with
  | .equality a b =>
    show totalCandidates (constrEquality a b s).1 ≤ totalCandidates s
    by_cases h1 : (s.get a).types.head? = some Ty.any
    · by_cases h2 : (s.get b).types.head? = some Ty.any
      · rw [constrEquality_any_any a b s h1 h2]
      · exact absurd (Or.inl ⟨h1, h2⟩) h
    · by_cases h2 : (s.get b).types.head? = some Ty.any
      · exact absurd (Or.inr ⟨h1, h2⟩) h
      · by_cases h3 : (s.get a).types.length = 0 ∨ (s.get b).types.length = 0
        · rw [constrEquality_empty a b s h1 h2 h3]
        · have hle := interMerge_length_le (s.get a).types (s.get b).types
          have hb : (interMerge (s.get a).types (s.get b).types).1.length ≤
              (((s.replace a (interMerge (s.get a).types (s.get b).types).1).get b).types).length := by
            rw [TypeVarStore.get_replace]
            split
            · exact Nat.le_refl _
            · exact hle.2
          rw [constrEquality_main a b s h1 h2 h3]
          exact Nat.le_trans
            (totalCandidates_replace_le _ b _ hb)
            (totalCandidates_replace_le s a _ hle.1)
  | .included a b =>
    show totalCandidates (constrIncluded a b s).1 ≤ totalCandidates s
    by_cases h1 : (s.get a).types.head? = some Ty.any
    · by_cases h2 : (s.get b).types.head? = some Ty.any
      · rw [constrIncluded_any_any a b s h1 h2]
      · exact absurd ⟨h1, h2⟩ h
    · have hle := interMerge_length_le (s.get a).types (s.get b).types
      rw [constrIncluded_main a b s h1]
      exact totalCandidates_replace_le s a _ hle.1
  | .ret f rId =>
    show totalCandidates (constrReturn f rId s).1 ≤ totalCandidates s
    simp only [constrReturn]
    split
    · split
      · split
        · next hmem =>
          exact totalCandidates_replace_le s rId _ (List.length_pos_of_mem hmem)
        · exact Nat.le_refl _
      · exact Nat.le_refl _
    · exact Nat.le_refl _
    · exact Nat.le_refl _

/-- C3 (counterexample): the claim as frozen is false: applying
`Equality(0, 1)` to a store whose variable 0 has candidates `[Any]` and
whose variable 1 has `[I32, I64]` raises the total candidate count
from 3 to 4 (the special `Any` case replaces variable 0's list by
variable 1's list). -/
theorem c3_counterexample :
    totalCandidates ⟨[⟨0, [Ty.any]⟩, ⟨0, [Ty.i32, Ty.i64]⟩]⟩ = 3 ∧
    (applyConstr (.equality 0 1) ⟨[⟨0, [Ty.any]⟩, ⟨0, [Ty.i32, Ty.i64]⟩]⟩).1 =
      ⟨[⟨0, [Ty.i32, Ty.i64]⟩, ⟨0, [Ty.i32, Ty.i64]⟩]⟩ ∧
    totalCandidates (applyConstr (.equality 0 1)
      ⟨[⟨0, [Ty.any]⟩, ⟨0, [Ty.i32, Ty.i64]⟩]⟩).1 = 4 := by
  refine ⟨rfl, ?_, ?_⟩ <;>
    simp [totalCandidates, applyConstr, constrEquality,
      TypeVarStore.get, TypeVarStore.replace, List.getD]

/-- C3 (witness): the amended theorem applied at a concrete store where the
special case does not fire. -/
theorem c3_witness :
    ¬ anyPropFires (.equality 0 1) ⟨[⟨0, [Ty.i32, Ty.i64]⟩, ⟨0, [Ty.i32]⟩]⟩ ∧
    totalCandidates (applyConstr (.equality 0 1)
        ⟨[⟨0, [Ty.i32, Ty.i64]⟩, ⟨0, [Ty.i32]⟩]⟩).1 ≤
      totalCandidates ⟨[⟨0, [Ty.i32, Ty.i64]⟩, ⟨0, [Ty.i32]⟩]⟩ :=
  ⟨by simp [anyPropFires, TypeVarStore.get, List.getD],
   c3_apply_constr_total_nonincreasing _ _
     (by simp [anyPropFires, TypeVarStore.get, List.getD])⟩

-- ————————————— Progress of the equality merge, claim C4 ————————————— --

theorem eqProgress_iff (l1 l2 : List Ty) :
    (decide (l1.length ≠ l2.length) || (interMerge l1 l2).2.1 ||
        (interMerge l1 l2).2.2) = true ↔
      ((interMerge l1 l2).1.length < l1.length ∨
        (interMerge l1 l2).1.length < l2.length) := by
  have hle := interMerge_length_le l1 l2
  constructor
  · intro h
    rcases Bool.or_eq_true_iff.mp h with h | h
    · rcases Bool.or_eq_true_iff.mp h with h | h
      · have : l1.length ≠ l2.length := of_decide_eq_true h
        omega
      · exact Or.inl (interMerge_skip_left l1 l2 h)
    · exact Or.inr (interMerge_skip_right l1 l2 h)
  · intro h
    by_contra hc
    rw [Bool.not_eq_true] at hc
    rcases Bool.or_eq_false_iff.mp hc with ⟨hc1, hc2⟩
    rcases Bool.or_eq_false_iff.mp hc1 with ⟨hc0, hc3⟩
    have hlen : l1.length = l2.length := by
      by_contra hne
      rw [decide_eq_true hne] at hc0
      cases hc0
    have := interMerge_no_skip l1 l2 hc3 hc2
    omega

theorem eqProgress_eq_decide (l1 l2 : List Ty) :
    (decide (l1.length ≠ l2.length) || (interMerge l1 l2).2.1 ||
        (interMerge l1 l2).2.2) =
      decide ((interMerge l1 l2).1.length < l1.length ∨
        (interMerge l1 l2).1.length < l2.length) := by
  by_cases h : (interMerge l1 l2).1.length < l1.length ∨
      (interMerge l1 l2).1.length < l2.length
  · rw [decide_eq_true h]
    exact (eqProgress_iff l1 l2).mpr h
  · rw [decide_eq_false h, ← Bool.not_eq_true]
    intro hc
    exact h ((eqProgress_iff l1 l2).mp hc)

/-- C4 (amended): full characterization of `constr_equality`.  When one
side's candidate list is headed by `Any` and the other's is not, the
`Any`-headed list is replaced by the other side's list, the other side is
untouched, progress is reported, and no diagnostic is recorded (if both are
`Any`-headed nothing changes).  When either candidate list is already empty
(and neither is `Any`-headed), a "Could not infer a type satisfying
constraints" diagnostic is recorded at the location of the first variable —
not of the constraint, which carries no location — and nothing changes.
Otherwise both lists are replaced by their intersection (computed by the
sorted-list merge), progress is reported iff either list shrank, and no
diagnostic is recorded in this call even when the intersection is empty. -/
theorem c4_constr_equality_characterization (a b : Nat) (s : TypeVarStore)
    (hs1 : (s.get a).types.Pairwise TyLt) (hs2 : (s.get b).types.Pairwise TyLt) :
    (((s.get a).types.head? = some Ty.any ∧ (s.get b).types.head? = some Ty.any) →
        constrEquality a b s = (s, [], false)) ∧
    (((s.get a).types.head? = some Ty.any ∧ (s.get b).types.head? ≠ some Ty.any) →
        constrEquality a b s = (s.replace a (s.get b).types, [], true)) ∧
    (((s.get a).types.head? ≠ some Ty.any ∧ (s.get b).types.head? = some Ty.any) →
        constrEquality a b s = (s.replace b (s.get a).types, [], true)) ∧
    (((s.get a).types.head? ≠ some Ty.any ∧ (s.get b).types.head? ≠ some Ty.any ∧
        ((s.get a).types = [] ∨ (s.get b).types = [])) →
        constrEquality a b s =
          (s, [((s.get a).loc, "Could not infer a type satisfying constraints")], false)) ∧
    (((s.get a).types.head? ≠ some Ty.any ∧ (s.get b).types.head? ≠ some Ty.any ∧
        (s.get a).types ≠ [] ∧ (s.get b).types ≠ []) →
        constrEquality a b s =
          ((s.replace a ((s.get a).types.filter (fun x => decide (x ∈ (s.get b).types)))).replace
              b ((s.get a).types.filter (fun x => decide (x ∈ (s.get b).types))),
            [],
            decide
              (((s.get a).types.filter (fun x => decide (x ∈ (s.get b).types))).length <
                  (s.get a).types.length ∨
                ((s.get a).types.filter (fun x => decide (x ∈ (s.get b).types))).length <
                  (s.get b).types.length))) := by
  refine ⟨fun h => constrEquality_any_any a b s h.1 h.2,
    fun h => constrEquality_any_left a b s h.1 h.2,
    fun h => constrEquality_any_right a b s h.1 h.2,
    fun h => constrEquality_empty a b s h.1 h.2.1 (by
      rcases h.2.2 with h3 | h3 <;> simp [h3]),
    fun h => ?_⟩
  have h3 : ¬((s.get a).types.length = 0 ∨ (s.get b).types.length = 0) := by
    rcases h with ⟨-, -, h4, h5⟩
    simp only [List.length_eq_zero]
    intro hc
    rcases hc with hc | hc
    · exact h4 hc
    · exact h5 hc
  rw [constrEquality_main a b s h.1 h.2.1 h3,
    eqProgress_eq_decide (s.get a).types (s.get b).types,
    interMerge_eq_filter (s.get a).types (s.get b).types hs1 hs2]

/-- C4 (counterexample): the claim as frozen is false: applying
`Equality(0, 1)` to a store with candidate lists `[I32]` and `[I64]`
empties both candidate lists (their intersection is empty), yet no
diagnostic at all is recorded by this application — the emptiness check of
`constr_equality` runs before the intersection, not after. -/
theorem c4_counterexample :
    ((constrEquality 0 1 ⟨[⟨3, [Ty.i32]⟩, ⟨7, [Ty.i64]⟩]⟩).1.get 0).types = [] ∧
    ((constrEquality 0 1 ⟨[⟨3, [Ty.i32]⟩, ⟨7, [Ty.i64]⟩]⟩).1.get 1).types = [] ∧
    (constrEquality 0 1 ⟨[⟨3, [Ty.i32]⟩, ⟨7, [Ty.i64]⟩]⟩).2.1 = [] ∧
    (constrEquality 0 1 ⟨[⟨3, [Ty.i32]⟩, ⟨7, [Ty.i64]⟩]⟩).2.2 = true := by
  have hm : interMerge [Ty.i32] [Ty.i64] = ([], true, false) := by
    rw [interMerge_cons_lt [] [] (show Ty.cmp Ty.i32 Ty.i64 = .lt from rfl),
      interMerge_nil_left]
  refine ⟨?_, ?_, ?_, ?_⟩ <;>
    simp [constrEquality, hm, TypeVarStore.get, TypeVarStore.replace, List.getD]

/-- C4 (witness): the amended characterization applied to a concrete store
with sorted candidate lists `[I32]` and `[I32, I64]`. -/
theorem c4_witness :
    (([Ty.i32] : List Ty).Pairwise TyLt ∧ ([Ty.i32, Ty.i64] : List Ty).Pairwise TyLt) ∧
    constrEquality 0 1 ⟨[⟨0, [Ty.i32]⟩, ⟨0, [Ty.i32, Ty.i64]⟩]⟩ =
      (TypeVarStore.replace
          (TypeVarStore.replace ⟨[⟨0, [Ty.i32]⟩, ⟨0, [Ty.i32, Ty.i64]⟩]⟩ 0
            (([Ty.i32] : List Ty).filter (fun x => decide (x ∈ ([Ty.i32, Ty.i64] : List Ty)))))
          1 (([Ty.i32] : List Ty).filter (fun x => decide (x ∈ ([Ty.i32, Ty.i64] : List Ty)))),
        [],
        decide
          ((([Ty.i32] : List Ty).filter
              (fun x => decide (x ∈ ([Ty.i32, Ty.i64] : List Ty)))).length < 1 ∨
            (([Ty.i32] : List Ty).filter
              (fun x => decide (x ∈ ([Ty.i32, Ty.i64] : List Ty)))).length < 2)) :=
  ⟨⟨by decide, by decide⟩,
    (c4_constr_equality_characterization 0 1 ⟨[⟨0, [Ty.i32]⟩, ⟨0, [Ty.i32, Ty.i64]⟩]⟩
        (by decide) (by decide)).2.2.2.2
      ⟨by decide, by decide, by decide, by decide⟩⟩

-- —————————————————————————— Claim C5 —————————————————————————— --

/-- C5 (amended): characterization of `constr_included`.  The spec omits the
`Any` special case, which `constr_included` shares with `constr_equality`:
when a's candidate list is `Any`-headed and b's is not, a's list is replaced
wholesale by b's list (not by an intersection) with progress reported.
Otherwise a is narrowed to the intersection of the two lists and b is left
unchanged; progress implies that a's list strictly shrank, but not
conversely: when only trailing elements of a (beyond b's largest element)
are dropped, no progress is reported. -/
theorem c5_constr_included_characterization (a b : Nat) (s : TypeVarStore)
    (hs1 : (s.get a).types.Pairwise TyLt) (hs2 : (s.get b).types.Pairwise TyLt) :
    (((s.get a).types.head? = some Ty.any ∧ (s.get b).types.head? = some Ty.any) →
        constrIncluded a b s = (s, [], false)) ∧
    (((s.get a).types.head? = some Ty.any ∧ (s.get b).types.head? ≠ some Ty.any) →
        constrIncluded a b s = (s.replace a (s.get b).types, [], true)) ∧
    ((s.get a).types.head? ≠ some Ty.any →
        (constrIncluded a b s).1 =
          s.replace a ((s.get a).types.filter (fun x => decide (x ∈ (s.get b).types))) ∧
        (constrIncluded a b s).2.1 = [] ∧
        ((constrIncluded a b s).2.2 = true →
          ((s.get a).types.filter (fun x => decide (x ∈ (s.get b).types))).length <
            (s.get a).types.length)) ∧
    (b ≠ a → ((constrIncluded a b s).1).get b = s.get b) := by
  refine ⟨fun h => constrIncluded_any_any a b s h.1 h.2,
    fun h => constrIncluded_any_left a b s h.1 h.2,
    fun h => ?_, fun hba => ?_⟩
  · rw [constrIncluded_main a b s h]
    refine ⟨?_, rfl, ?_⟩
    · rw [interMerge_eq_filter (s.get a).types (s.get b).types hs1 hs2]
    · intro hskip
      rw [← interMerge_eq_filter (s.get a).types (s.get b).types hs1 hs2]
      exact interMerge_skip_left _ _ hskip
  · by_cases h1 : (s.get a).types.head? = some Ty.any
    · by_cases h2 : (s.get b).types.head? = some Ty.any
      · rw [constrIncluded_any_any a b s h1 h2]
      · rw [constrIncluded_any_left a b s h1 h2, TypeVarStore.get_replace]
        simp [hba]
    · rw [constrIncluded_main a b s h1, TypeVarStore.get_replace]
      simp [hba]

/-- C5 (counterexample): the claim as frozen is false: applying
`Included(0, 1)` with candidate lists `[I32, I64]` for variable 0 and
`[I32]` for variable 1 shrinks variable 0's list from two candidates to
one, yet `constr_included` reports no progress — the merge loop only flags
progress on the `Less` branch and exits once the right list is exhausted,
dropping a's trailing elements silently. -/
theorem c5_counterexample :
    ((constrIncluded 0 1 ⟨[⟨0, [Ty.i32, Ty.i64]⟩, ⟨0, [Ty.i32]⟩]⟩).1.get 0).types =
      [Ty.i32] ∧
    (constrIncluded 0 1 ⟨[⟨0, [Ty.i32, Ty.i64]⟩, ⟨0, [Ty.i32]⟩]⟩).2.2 = false := by
  have hm : interMerge [Ty.i32, Ty.i64] [Ty.i32] = ([Ty.i32], false, false) := by
    rw [interMerge_cons_eq [Ty.i64] [] (show Ty.cmp Ty.i32 Ty.i32 = .eq from rfl),
      interMerge_nil_right]
  constructor <;>
    simp [constrIncluded, hm, TypeVarStore.get, TypeVarStore.replace, List.getD]

/-- C5 (witness): the amended characterization applied to a concrete store
with sorted candidate lists `[I32, I64]` and `[I32]`. -/
theorem c5_witness :
    (([Ty.i32, Ty.i64] : List Ty).Pairwise TyLt ∧
      ([Ty.i32] : List Ty).Pairwise TyLt) ∧
    (constrIncluded 0 1 ⟨[⟨0, [Ty.i32, Ty.i64]⟩, ⟨0, [Ty.i32]⟩]⟩).1 =
      TypeVarStore.replace ⟨[⟨0, [Ty.i32, Ty.i64]⟩, ⟨0, [Ty.i32]⟩]⟩ 0
        (([Ty.i32, Ty.i64] : List Ty).filter
          (fun x => decide (x ∈ ([Ty.i32] : List Ty)))) :=
  ⟨⟨by decide, by decide⟩,
    ((c5_constr_included_characterization 0 1 ⟨[⟨0, [Ty.i32, Ty.i64]⟩, ⟨0, [Ty.i32]⟩]⟩
        (by decide) (by decide)).2.2.1 (by decide)).1⟩

-- —————————————————————————— Claim C6 —————————————————————————— --

/-- Per-variable reading of the defaulting pass: the resolved type that
`build_store` emits for one type variable, given the current candidate list
of the canonical integer variable. -/
def defaultedType (integers : List Ty) (v : TypeVar) : Option Ty :=
  match v.types with
  | [t] => some t
  | [] => none
  | _ => if v.types = integers then some Ty.i64 else none

/-- Per-variable reading of the defaulting pass: the diagnostic that
`build_store` records for one type variable.  Both messages are reported
through `report_line(0, _)`, i.e. at line 0, whatever the variable's
location is. -/
def defaultedDiag (integers : List Ty) (v : TypeVar) : Option Diag :=
  match v.types with
  | [_] => none
  | [] => some (0, "Could not find a type satisfying constraint")
  | _ => if v.types = integers then none else some (0, "Could not infer type")

theorem buildStore_foldl (integers : TypeVar) :
    ∀ (l : List TypeVar) (acc : TypeStore × List Diag),
    l.foldl
      (fun acc var =>
        match var.types with
        | [t] => (acc.1 ++ [t], acc.2)
        | [] => (acc.1, acc.2 ++ [(0, "Could not find a type satisfying constraint")])
        | _ =>
          if var.types = integers.types then (acc.1 ++ [Ty.i64], acc.2)
          else (acc.1, acc.2 ++ [(0, "Could not infer type")])) acc =
    (acc.1 ++ l.filterMap (defaultedType integers.types),
      acc.2 ++ l.filterMap (defaultedDiag integers.types))
  | [], acc => by simp
  | v :: vs, acc => by
    rw [List.foldl_cons, buildStore_foldl integers vs _]
    match hv : v.types with
    | [t] =>
      simp [defaultedType, defaultedDiag, hv, List.filterMap_cons]
    | [] =>
      simp [defaultedType, defaultedDiag, hv, List.filterMap_cons]
    | t1 :: t2 :: ts =>
      by_cases hint : t1 :: t2 :: ts = integers.types
      · have hints : integers.types = t1 :: t2 :: ts := hint.symm
        simp [defaultedType, defaultedDiag, hv, hints, List.filterMap_cons]
      · simp [defaultedType, defaultedDiag, hv, hint, List.filterMap_cons]

/-- C6 (amended): the defaulting pass resolves every singleton candidate
list to its unique element and every non-singleton list equal to the
canonical integer variable's candidate list to `I64`; every other list
produces a diagnostic, but: the empty list produces "Could not find a type
satisfying constraint" and other ambiguous lists produce "Could not infer
type", and both are reported via `report_line(0, _)` — at line 0, not at
the type variable's location. -/
theorem c6_build_store_characterization (vs : TypeVarStore) :
    buildStore vs =
      (vs.vars.filterMap (defaultedType (vs.get T_ID_INTEGER).types),
        vs.vars.filterMap (defaultedDiag (vs.get T_ID_INTEGER).types)) := by
  show vs.vars.foldl _ ([], []) = _
  rw [buildStore_foldl (vs.get T_ID_INTEGER) vs.vars ([], [])]
  simp

/-- C6 (counterexample): the claim as frozen is false: a type variable at
location 5 with an empty candidate list produces the diagnostic
`(0, "Could not find a type satisfying constraint")` — recorded at line 0,
not at the variable's location 5, and not with an "ambiguous type"
message.  (Variable 0 is the canonical integer variable `{I32, I64}` and
defaults to `I64`.) -/
theorem c6_counterexample :
    buildStore ⟨[⟨0, [Ty.i32, Ty.i64]⟩, ⟨5, []⟩]⟩ =
      ([Ty.i64], [(0, "Could not find a type satisfying constraint")]) := by
  decide

-- —————————————————— The generic Store of src/hir/store.rs —————————————————— --

/-- Insertion into an association list with `HashMap::insert` semantics:
replace the value if the key is present, append otherwise. -/
def insertPair {T : Type} (l : List (Nat × T)) (k : Nat) (v : T) : List (Nat × T) :=
  if l.any (fun p => p.1 == k) then
    l.map (fun p => if p.1 = k then (k, v) else p)
  else l ++ [(k, v)]

/-- Embedding of `Store<I, T>` (src/hir/store.rs).  Ids (`u64`) are `Nat`
with explicit `2 ^ 32` / `2 ^ 64` bounds where they matter; the `HashMap`
is an association list with unique keys; `ModId` is the unsigned integer
that `fresh_id` casts to `u64` and shifts into the high 32 bits. -/
structure Store (T : Type) where
  mod_id : Nat
  counter : Nat
  data : List (Nat × T)
  merged_mods : List Nat

/-- Embedding of `Store::new`. -/
def Store.new (T : Type) (mod_id : Nat) : Store T :=
  { mod_id := mod_id, counter := 0, data := [], merged_mods := [] }

/-- Embedding of `Store::fresh_id`: the id is the counter plus the module
id shifted left by 32 bits (no `u64` overflow: both fit in 32 bits), then
the counter is incremented with `checked_add`, whose failure (`counter`
is `u32::MAX`) panics — embedded as `none`. -/
def Store.fresh_id {T : Type} (s : Store T) : Option (Nat × Store T) :=
  if s.counter + 1 < 2 ^ 32 then
    some (s.counter + s.mod_id * 2 ^ 32, { s with counter := s.counter + 1 })
  else none

/-- Embedding of `Store::insert`. -/
def Store.insert {T : Type} (s : Store T) (id : Nat) (item : T) : Store T :=
  { s with data := insertPair s.data id item }

/-- Embedding of `Store::add`: a fresh id followed by an insertion. -/
def Store.add {T : Type} (s : Store T) (item : T) : Option (Nat × Store T) :=
  match s.fresh_id with
  | none => none
  | some (id, s1) => some (id, s1.insert id item)

/-- Embedding of `Store::get`. -/
def Store.get {T : Type} (s : Store T) (id : Nat) : Option T :=
  (s.data.find? (fun p => p.1 == id)).map Prod.snd

/-- Embedding of `Store::extend`: the two panics (same module id, module id
already merged) are embedded as `none`; otherwise the other store's pairs
are inserted into this store's map and the module id is recorded. -/
def Store.extend {T : Type} (s other : Store T) : Option (Store T) :=
  if other.mod_id = s.mod_id then none
  else if other.mod_id ∈ s.merged_mods then none
  else some { s with
    data := other.data.foldl (fun d p => insertPair d p.1 p.2) s.data,
    merged_mods := s.merged_mods ++ [other.mod_id] }

/-- Embedding of `Store::transmute`: keeps the module id, counter and
merged set; every entry is mapped through `f`, keeping its id, and dropped
when `f` returns `none`. -/
def Store.transmute {T Q : Type} (s : Store T) (f : T → Option Q) : Store Q :=
  { mod_id := s.mod_id, counter := s.counter, merged_mods := s.merged_mods,
    data := s.data.filterMap (fun p => (f p.2).map (fun q => (p.1, q))) }

/-- A sequence of `n` successive `fresh_id` calls on a store, collecting
the returned ids. -/
def Store.freshIds {T : Type} (s : Store T) : Nat → Option (List Nat × Store T)
  | 0 => some ([], s)
  | n + 1 =>
    match s.fresh_id with
    | none => none
    | some (id, s1) =>
      match s1.freshIds n with
      | none => none
      | some (ids, s2) => some (id :: ids, s2)

/-- Well-formedness of a store as maintained by the Rust API: the module id
and counter are 32-bit values (`ModId` and `u32`), the map keys are unique
(`HashMap`), and every key minted by this store's module (high 32 bits
equal to `mod_id`) has its low 32 bits below the current counter. -/
def Store.WF {T : Type} (s : Store T) : Prop :=
  s.mod_id < 2 ^ 32 ∧ s.counter < 2 ^ 32 ∧
  (s.data.map Prod.fst).Nodup ∧
  ∀ k ∈ s.data.map Prod.fst, k / 2 ^ 32 = s.mod_id → k % 2 ^ 32 < s.counter

theorem Store.freshIds_eq {T : Type} :
    ∀ (n : Nat) (s s2 : Store T) (ids : List Nat),
    s.freshIds n = some (ids, s2) →
    ids = (List.range n).map (fun i => s.counter + i + s.mod_id * 2 ^ 32) ∧
    s2 = { s with counter := s.counter + n } ∧
    (∀ i, i < n → s.counter + i + 1 < 2 ^ 32)
  | 0, s, s2, ids, h => by
    cases h
    exact ⟨rfl, rfl, by omega⟩
  | n + 1, s, s2, ids, h => by
    simp only [Store.freshIds] at h
    by_cases hc : s.counter + 1 < 2 ^ 32
    · simp only [Store.fresh_id, if_pos hc] at h
      cases hrec : Store.freshIds { s with counter := s.counter + 1 } n with
      | none =>
        rw [hrec] at h
        cases h
      | some r =>
        obtain ⟨ids1, s3⟩ := r
        rw [hrec] at h
        obtain ⟨hids, hs3, hbound⟩ := Store.freshIds_eq n _ s3 ids1 hrec
        simp only at hids hs3 hbound
        cases h
        refine ⟨?_, ?_, ?_⟩
        · rw [hids, List.range_succ_eq_map, List.map_cons, List.map_map]
          congr 1
          apply List.map_congr_left
          intro i _
          simp only [Function.comp_apply]
          omega
        · rw [hs3]
          congr 1
          omega
        · intro i hi
          cases i with
          | zero => omega
          | succ j =>
            have := hbound j (by omega)
            omega
    · simp only [Store.fresh_id, if_neg hc] at h
      cases h

-- —————————————————————————— Claim C1 —————————————————————————— --

/-- C1: every id returned by a sequence of `fresh_id` calls on a store with
a 32-bit module id decodes, in its high 32 bits, to the store's module id
and, in its low 32 bits, to the value of the store's counter at the time of
that call; and no two calls return equal ids. -/
theorem c1_fresh_id_decode_unique {T : Type} (s : Store T) (n : Nat)
    (ids : List Nat) (s2 : Store T) (_hm : s.mod_id < 2 ^ 32)
    (h : s.freshIds n = some (ids, s2)) :
    (∀ i (hi : i < ids.length),
      ids.get ⟨i, hi⟩ / 2 ^ 32 = s.mod_id ∧
      ids.get ⟨i, hi⟩ % 2 ^ 32 = s.counter + i) ∧
    ids.Nodup := by
  obtain ⟨hids, -, hbound⟩ := Store.freshIds_eq n s s2 ids h
  subst hids
  constructor
  · intro i hi
    rw [List.length_map, List.length_range] at hi
    have hb := hbound i hi
    simp only [List.get_eq_getElem, List.getElem_map, List.getElem_range]
    constructor
    · rw [Nat.add_mul_div_right _ _ (by norm_num : 0 < 2 ^ 32),
        Nat.div_eq_of_lt (by omega)]
      omega
    · rw [Nat.add_mul_mod_self_right, Nat.mod_eq_of_lt (by omega)]
  · apply List.Nodup.map _ (List.nodup_range n)
    intro i j hij
    have hij2 : s.counter + i + s.mod_id * 2 ^ 32 =
        s.counter + j + s.mod_id * 2 ^ 32 := hij
    omega

/-- C1 (witness): two `fresh_id` calls on a store freshly created with
module id 1 return the ids `1 << 32` and `(1 << 32) + 1`. -/
theorem c1_witness :
    (Store.new Nat 1).mod_id < 2 ^ 32 ∧
    (Store.new Nat 1).freshIds 2 = some ([4294967296, 4294967297], ⟨1, 2, [], []⟩) ∧
    ((∀ i (hi : i < ([4294967296, 4294967297] : List Nat).length),
        ([4294967296, 4294967297] : List Nat).get ⟨i, hi⟩ / 2 ^ 32 =
          (Store.new Nat 1).mod_id ∧
        ([4294967296, 4294967297] : List Nat).get ⟨i, hi⟩ % 2 ^ 32 =
          (Store.new Nat 1).counter + i) ∧
      ([4294967296, 4294967297] : List Nat).Nodup) :=
  ⟨by decide, rfl,
    c1_fresh_id_decode_unique (Store.new Nat 1) 2 [4294967296, 4294967297]
      ⟨1, 2, [], []⟩ (by decide) rfl⟩

-- —————————————————————————— Claim C7 —————————————————————————— --

theorem key_nodup_eq {T : Type} : ∀ (l : List (Nat × T)),
    (l.map Prod.fst).Nodup →
    ∀ p q : Nat × T, p ∈ l → q ∈ l → p.1 = q.1 → p = q
  | [], _, p, q, hp, _, _ => absurd hp (List.not_mem_nil p)
  | x :: l, hnd, p, q, hp, hq, hpq => by
    rw [List.map_cons, List.nodup_cons] at hnd
    rcases List.mem_cons.mp hp with hpx | hp2
    · rcases List.mem_cons.mp hq with hqx | hq2
      · rw [hpx, hqx]
      · exfalso
        apply hnd.1
        rw [hpx] at hpq
        rw [hpq]
        exact List.mem_map_of_mem Prod.fst hq2
    · rcases List.mem_cons.mp hq with hqx | hq2
      · exfalso
        apply hnd.1
        rw [hqx] at hpq
        rw [← hpq]
        exact List.mem_map_of_mem Prod.fst hp2
      · exact key_nodup_eq l hnd.2 p q hp2 hq2 hpq

theorem transmute_keys_sublist {T Q : Type} (f : T → Option Q) :
    ∀ l : List (Nat × T),
    ((l.filterMap (fun p => (f p.2).map (fun q => (p.1, q)))).map Prod.fst).Sublist
      (l.map Prod.fst)
  | [] => List.Sublist.slnil
  | p :: l => by
    cases hf : f p.2 with
    | none =>
      simp only [List.filterMap_cons, hf, Option.map_none', List.map_cons]
      exact (transmute_keys_sublist f l).cons p.1
    | some q =>
      simp only [List.filterMap_cons, hf, Option.map_some', List.map_cons]
      exact (transmute_keys_sublist f l).cons₂ p.1

/-- C7: `transmute` keeps the exact id of every entry on which `f` returns
`some`, drops the id of every entry on which `f` returns `none`, preserves
the counter, and every subsequent sequence of `fresh_id` calls on the
result returns ids distinct from all ids present in it. -/
theorem c7_transmute_preserves {T Q : Type} (s : Store T) (f : T → Option Q)
    (hwf : s.WF) :
    (∀ p ∈ s.data, ∀ q, f p.2 = some q → (p.1, q) ∈ (s.transmute f).data) ∧
    (∀ p ∈ s.data, f p.2 = none → p.1 ∉ (s.transmute f).data.map Prod.fst) ∧
    (s.transmute f).counter = s.counter ∧
    (∀ (n : Nat) (ids : List Nat) (s2 : Store Q),
      (s.transmute f).freshIds n = some (ids, s2) →
      ∀ id ∈ ids, id ∉ (s.transmute f).data.map Prod.fst) := by
  obtain ⟨hmod, hcnt, hnd, hkeys⟩ := hwf
  refine ⟨?_, ?_, rfl, ?_⟩
  · intro p hp q hq
    exact List.mem_filterMap.mpr ⟨p, hp, by rw [hq]; rfl⟩
  · intro p hp hnone hmem
    obtain ⟨pq, hpq, hfst⟩ := List.mem_map.mp hmem
    obtain ⟨p2, hp2, hg⟩ := List.mem_filterMap.mp hpq
    cases hf2 : f p2.2 with
    | none => rw [hf2] at hg; cases hg
    | some q2 =>
      rw [hf2] at hg
      have hq2 : pq = (p2.1, q2) := by
        cases hg
        rfl
      have : p2 = p := key_nodup_eq s.data hnd p2 p hp2 hp (by rw [← hfst, hq2])
      rw [this] at hf2
      rw [hf2] at hnone
      cases hnone
  · intro n ids s2 h id hid hmem
    obtain ⟨hids, -, hbound⟩ := Store.freshIds_eq n _ s2 ids h
    subst hids
    obtain ⟨i, hi, hval⟩ := List.mem_map.mp hid
    rw [List.mem_range] at hi
    have hb := hbound i hi
    simp only [Store.transmute] at hval hb
    have hsub := (transmute_keys_sublist f s.data).mem hmem
    have hdecode : id / 2 ^ 32 = s.mod_id ∧ id % 2 ^ 32 = s.counter + i := by
      constructor
      · rw [← hval, Nat.add_mul_div_right _ _ (by norm_num : 0 < 2 ^ 32),
          Nat.div_eq_of_lt (by omega)]
        omega
      · rw [← hval, Nat.add_mul_mod_self_right, Nat.mod_eq_of_lt (by omega)]
    have := hkeys id hsub hdecode.1
    omega

/-- C7 (witness): the theorem applied to a concrete well-formed store with
two entries, of which the transformation keeps one. -/
theorem c7_witness :
    (⟨1, 2, [(4294967296, 1), (4294967297, 5)], []⟩ : Store Nat).WF ∧
    ((∀ p ∈ (⟨1, 2, [(4294967296, 1), (4294967297, 5)], []⟩ : Store Nat).data,
        ∀ q, (fun t => if t = 1 then some (t + 10) else none) p.2 = some q →
        (p.1, q) ∈ ((⟨1, 2, [(4294967296, 1), (4294967297, 5)], []⟩ : Store Nat).transmute
          (fun t => if t = 1 then some (t + 10) else none)).data) ∧
      (∀ p ∈ (⟨1, 2, [(4294967296, 1), (4294967297, 5)], []⟩ : Store Nat).data,
        (fun t => if t = 1 then some (t + 10) else none) p.2 = none →
        p.1 ∉ ((⟨1, 2, [(4294967296, 1), (4294967297, 5)], []⟩ : Store Nat).transmute
          (fun t => if t = 1 then some (t + 10) else none)).data.map Prod.fst) ∧
      ((⟨1, 2, [(4294967296, 1), (4294967297, 5)], []⟩ : Store Nat).transmute
          (fun t => if t = 1 then some (t + 10) else none)).counter =
        (⟨1, 2, [(4294967296, 1), (4294967297, 5)], []⟩ : Store Nat).counter ∧
      (∀ (n : Nat) (ids : List Nat) (s2 : Store Nat),
        ((⟨1, 2, [(4294967296, 1), (4294967297, 5)], []⟩ : Store Nat).transmute
          (fun t => if t = 1 then some (t + 10) else none)).freshIds n = some (ids, s2) →
        ∀ id ∈ ids, id ∉ ((⟨1, 2, [(4294967296, 1), (4294967297, 5)], []⟩ : Store Nat).transmute
          (fun t => if t = 1 then some (t + 10) else none)).data.map Prod.fst)) :=
  ⟨by unfold Store.WF; decide,
    c7_transmute_preserves (⟨1, 2, [(4294967296, 1), (4294967297, 5)], []⟩ : Store Nat)
      (fun t => if t = 1 then some (t + 10) else none) (by unfold Store.WF; decide)⟩

-- —————————————————————————— Claim C8 —————————————————————————— --

theorem insertPair_of_not_mem {T : Type} (l : List (Nat × T)) (k : Nat) (v : T)
    (h : k ∉ l.map Prod.fst) : insertPair l k v = l ++ [(k, v)] := by
  rw [insertPair, if_neg]
  intro hany
  obtain ⟨p, hp, hpk⟩ := List.any_eq_true.mp hany
  exact h (List.mem_map.mpr ⟨p, hp, by simpa using hpk⟩)

theorem foldl_insertPair_disjoint {T : Type} :
    ∀ (l2 l1 : List (Nat × T)),
    (∀ k ∈ l2.map Prod.fst, k ∉ l1.map Prod.fst) → (l2.map Prod.fst).Nodup →
    l2.foldl (fun d p => insertPair d p.1 p.2) l1 = l1 ++ l2
  | [], l1, _, _ => by simp
  | p :: l2, l1, hdis, hnd => by
    rw [List.foldl_cons,
      insertPair_of_not_mem l1 p.1 p.2
        (hdis p.1 (List.mem_map_of_mem Prod.fst (List.mem_cons_self p l2)))]
    rw [List.map_cons, List.nodup_cons] at hnd
    have hdis2 : ∀ k ∈ l2.map Prod.fst, k ∉ (l1 ++ [(p.1, p.2)]).map Prod.fst := by
      intro k hk
      rw [List.map_append]
      intro hmem
      rcases List.mem_append.mp hmem with hmem | hmem
      · exact hdis k (by rw [List.map_cons]; exact List.mem_cons_of_mem _ hk) hmem
      · simp only [List.map_cons, List.map_nil, List.mem_singleton] at hmem
        rw [hmem] at hk
        exact hnd.1 hk
    rw [foldl_insertPair_disjoint l2 (l1 ++ [(p.1, p.2)]) hdis2 hnd.2,
      List.append_assoc]
    rfl

/-- C8: `extend` fails on a store with the same module id and on a module
id that was already merged; for stores with distinct module ids and
disjoint key sets the entry set of the result is the set-union of the two
entry sets. -/
theorem c8_extend_rejects_and_union {T : Type} (s other : Store T) :
    (other.mod_id = s.mod_id → s.extend other = none) ∧
    (other.mod_id ∈ s.merged_mods → s.extend other = none) ∧
    (other.mod_id ≠ s.mod_id → other.mod_id ∉ s.merged_mods →
      (∀ k ∈ other.data.map Prod.fst, k ∉ s.data.map Prod.fst) →
      (other.data.map Prod.fst).Nodup →
      ∃ se, s.extend other = some se ∧
        se.data = s.data ++ other.data ∧
        ∀ kv : Nat × T, kv ∈ se.data ↔ kv ∈ s.data ∨ kv ∈ other.data) := by
  refine ⟨fun h => ?_, fun h => ?_, fun h1 h2 hdis hnd => ?_⟩
  · rw [Store.extend, if_pos h]
  · rw [Store.extend]
    by_cases hsame : other.mod_id = s.mod_id
    · rw [if_pos hsame]
    · rw [if_neg hsame, if_pos h]
  · refine ⟨_, by rw [Store.extend, if_neg h1, if_neg h2], ?_, ?_⟩
    · exact foldl_insertPair_disjoint other.data s.data hdis hnd
    · intro kv
      rw [foldl_insertPair_disjoint other.data s.data hdis hnd]
      exact List.mem_append

/-- C8 (counterexample): the claim as frozen is false: two stores with
distinct module ids 0 and 1 both holding key 5 (with different values) can
be merged, and the merge keeps only the second store's pair — the entry
`(5, 10)` of the receiver is lost, so the entry set is not the set-union of
the two original entry sets. -/
theorem c8_counterexample :
    (⟨0, 0, [(5, 10)], []⟩ : Store Nat).extend ⟨1, 0, [(5, 20)], []⟩ =
      some ⟨0, 0, [(5, 20)], [1]⟩ ∧
    ((5, 10) ∈ (⟨0, 0, [(5, 10)], []⟩ : Store Nat).data ∧
      (5, 10) ∉ ([(5, 20)] : List (Nat × Nat))) := by
  constructor
  · rfl
  · constructor
    · exact List.mem_cons_self _ _
    · decide

/-- C8 (witness): the rejection cases and the disjoint-key union applied to
concrete stores. -/
theorem c8_witness :
    ((1 : Nat) ≠ 0 ∧ (1 : Nat) ∉ ([] : List Nat) ∧
      (∀ k ∈ ([(4294967296, 20)] : List (Nat × Nat)).map Prod.fst,
        k ∉ ([(5, 10)] : List (Nat × Nat)).map Prod.fst) ∧
      (([(4294967296, 20)] : List (Nat × Nat)).map Prod.fst).Nodup) ∧
    (∃ se, (⟨0, 0, [(5, 10)], []⟩ : Store Nat).extend ⟨1, 0, [(4294967296, 20)], []⟩ =
        some se ∧
      se.data = [(5, 10)] ++ [(4294967296, 20)] ∧
      ∀ kv : Nat × Nat, kv ∈ se.data ↔ kv ∈ [(5, 10)] ∨ kv ∈ [(4294967296, 20)]) :=
  ⟨⟨by decide, by decide, by decide, by decide⟩,
    (c8_extend_rejects_and_union (⟨0, 0, [(5, 10)], []⟩ : Store Nat)
        ⟨1, 0, [(4294967296, 20)], []⟩).2.2
      (by decide) (by decide) (by decide) (by decide)⟩

-- ———————————————— MIR data model (src/mir/mir.rs and its use sites) ———————————————— --

/-- MIR machine types (`Type` in src/mir/mir.rs). -/
inductive MTy where
  | i32
  | i64
  | f32
  | f64
deriving DecidableEq

/-- MIR constant values (`Value` in src/mir/mir.rs).  Integer payloads are
`Int` (`i32`/`i64`); float payloads are opaque bit patterns (`Nat`),
since no claim depends on float arithmetic. -/
inductive MValue where
  | i32 (n : Int)
  | i64 (n : Int)
  | f32 (bits : Nat)
  | f64 (bits : Nat)
deriving DecidableEq

/-- Modelled: the `as f32` cast applied to a float literal is carried as an
opaque bit-pattern transformation (no claim depends on its value). -/
def f32OfF64 (bits : Nat) : Nat := bits

/-- MIR unary operators (`Unop` in src/mir/mir.rs). -/
inductive MUnop where
  | i32Neg
  | i64Neg
  | f32Neg
  | f64Neg
deriving DecidableEq

/-- MIR binary operators (`Binop` in src/mir/mir.rs). -/
inductive MBinop where
  | i32Xor
  | i32Add
  | i32Sub
  | i32Mul
  | i32Div
  | i32Rem
  | i64Add
  | i64Sub
  | i64Mul
  | i64Div
  | i64Rem
  | f32Add
  | f32Sub
  | f32Mul
  | f32Div
  | f64Add
  | f64Sub
  | f64Mul
  | f64Div
deriving DecidableEq

/-- MIR comparison operators (`Relop` in src/mir/mir.rs). -/
inductive MRelop where
  | i32Eq
  | i32Ne
  | i32Lt
  | i32Gt
  | i32Le
  | i32Ge
  | i64Eq
  | i64Ne
  | i64Lt
  | i64Gt
  | i64Le
  | i64Ge
  | f32Eq
  | f32Ne
  | f32Lt
  | f32Gt
  | f32Le
  | f32Ge
  | f64Eq
  | f64Ne
  | f64Lt
  | f64Gt
  | f64Le
  | f64Ge
deriving DecidableEq

/-- MIR parametric instructions (`Parametric` in src/mir/mir.rs). -/
inductive MParam where
  | drop
deriving DecidableEq

/-- MIR control instructions (`Control` in src/mir/mir.rs). -/
inductive MControl where
  | ret
  | br (bb : Nat)
  | brIf (bb : Nat)
deriving DecidableEq

/-- MIR calls (`Call`, used by ast_to_mir.rs). -/
inductive MCall where
  | direct (funId : Nat)
deriving DecidableEq

mutual
/-- MIR blocks (`Block` in src/mir/mir.rs, with the optional result type
`t` that `ast_to_mir.rs` sets on `If` blocks). -/
inductive MBlock where
  | block (id : Nat) (stmts : List MStmt) (t : Option MTy)
  | loop (id : Nat) (stmts : List MStmt) (t : Option MTy)
  | ifElse (id : Nat) (thenStmts elseStmts : List MStmt) (t : Option MTy)

/-- MIR statements (`Statement` in src/mir/mir.rs plus the `Call` variant
used by ast_to_mir.rs). -/
inductive MStmt where
  | set (lId : Nat)
  | get (lId : Nat)
  | const (val : MValue)
  | blockS (block : MBlock)
  | unop (unop : MUnop)
  | binop (binop : MBinop)
  | relop (relop : MRelop)
  | control (cntrl : MControl)
  | parametric (param : MParam)
  | call (call : MCall)
end

-- ——————————— Typed AST consumed by the lowering (src/mir/names.rs) ——————————— --

/-- Modelled from the spec: literal values of the missing `src/mir/names.rs`
(spec §6; integer literal payloads are `u64` per `IntegerLit(u64)` in
src/ast/tokens.rs); each numeric literal carries its type-variable id. -/
inductive AValue where
  | integer (val : Nat) (tId : Nat)
  | float (bits : Nat) (tId : Nat)
  | boolean (val : Bool)

/-- Modelled from the spec: the source binary operators
(`ast::BinaryOperator`) that `get_binop` dispatches on. -/
inductive ABinop where
  | plus
  | minus
  | multiply
  | divide
  | remainder
  | equal
  | notEqual
  | less
  | greater
  | lessEqual
  | greaterEqual
  | andOp
  | orOp

/-- Modelled from the spec: the source unary operators (`ast::UnaryOperator`). -/
inductive AUnop where
  | minus
  | not

/-- Modelled from the spec: expressions of the missing `src/mir/names.rs`
(spec §6 AST input contract, fields as used by `reduce_expr`).  `Variable`
carries the name id of the resolved reference; `Binary` carries both its
own tv id (unused by the lowering) and the operand tv id `op_t_id`. -/
inductive Expr where
  | literal (value : AValue)
  | varE (nId : Nat)
  | functionE
  | binary (left : Expr) (binop : ABinop) (right : Expr) (tId opTId : Nat)
  | unary (unop : AUnop) (expr : Expr) (tId : Nat) (loc : Nat)
  | callDirect (funId : Nat) (args : List Expr)
  | callIndirect (loc : Nat)

/-- Modelled from the spec: statements of the missing `src/mir/names.rs`
(spec §6), with nested blocks inlined as their statement lists (a
`NameBlock` is a record holding `stmts`). -/
inductive Stmt where
  | assign (varNId : Nat) (expr : Expr)
  | letS (varNId : Nat) (expr : Expr)
  | exprS (expr : Expr)
  | returnS (expr : Option Expr)
  | whileS (expr : Expr) (body : List Stmt)
  | ifS (expr : Expr) (thenB : List Stmt) (elseB : Option (List Stmt))

/-- Modelled from the spec: inline-assembly control statements (only
`Return` exists in this version). -/
inductive AsmControl where
  | ret

/-- Modelled from the spec: inline-assembly parametric statements (only
`Drop`). -/
inductive AsmParametric where
  | drop

/-- Modelled from the spec: inline-assembly statements as consumed by
`reduce_asm_statement` (constants, control, parametric). -/
inductive AsmStatement where
  | constS (val : MValue)
  | control (cntrl : AsmControl)
  | parametric (param : AsmParametric)

/-- Modelled from the spec: the body of a resolved function (spec §6:
`Zephyr(block) | Asm([stmt])`). -/
inductive FunBody where
  | zephyr (block : List Stmt)
  | asm (stmts : List AsmStatement)

/-- Modelled from the spec: a resolved name (spec §3: "a name carries its
source location and its … type id (after inference)"); the lowering only
reads the type id. -/
structure Name where
  tId : Nat

/-- Modelled from the spec: a resolved function of the missing
`src/mir/names.rs` with the fields `reduce_fun` reads (`params` is the
list of parameter name ids). -/
structure NameFun where
  nId : Nat
  params : List Nat
  locals : List Nat
  body : FunBody
  ident : String
  isPub : Bool
  exposed : Bool
  funId : Nat
  loc : Nat

/-- Modelled from the spec: a public declaration (spec §4.5); carried
through the lowering untouched. -/
structure Declaration where
  funId : Nat

/-- The `TypedProgram` consumed by `MIRProducer::reduce` (src/mir/mod.rs
shape plus the `pub_decls` field that `reduce` copies). -/
structure TypedProgram where
  funs : List NameFun
  names : List Name
  types : TypeStore
  pubDecls : List (String × Declaration)

-- ———————————————— Lowering state and outcomes (ast_to_mir.rs) ———————————————— --

/-- MIR local declaration (`Local` in src/mir/mir.rs). -/
structure MLocal where
  id : Nat
  t : MTy
deriving DecidableEq

/-- MIR function (`Function` in src/mir/mir.rs plus `fun_id`). -/
structure MFunction where
  ident : String
  params : List Nat
  paramTypes : List MTy
  retTypes : List MTy
  locals : List MLocal
  body : MBlock
  isPub : Bool
  exposed : Bool
  funId : Nat

/-- MIR program (`Program`, with the `pub_decls` that `reduce` copies). -/
structure MProgram where
  funs : List MFunction
  pubDecls : List (String × Declaration)

/-- The lowering state (`State` in ast_to_mir.rs): name store, type store
and the per-program basic-block counter. -/
structure LState where
  names : List Name
  types : TypeStore
  bbId : Nat

/-- Embedding of `State::fresh_bb_id`. -/
def LState.freshBbId (s : LState) : Nat × LState :=
  (s.bbId, { s with bbId := s.bbId + 1 })

/-- `NameStore::get`, total over the modelled list (the Rust map panics on
an unknown id; the claims only exercise ids in range). -/
def LState.nameGet (s : LState) (nId : Nat) : Name :=
  s.names.getD nId ⟨0⟩

/-- `TypeStore::get`, total with the poisoned type as default (the Rust
map panics on an unknown id; `Bug` is rejected by `get_type` anyway). -/
def LState.typeGet (s : LState) (tId : Nat) : Ty :=
  s.types.getD tId Ty.bug

/-- Outcome of a lowering step: success, a `Result::Err` (reported by the
caller through the error sink), or a Rust panic (from `unwrap`). -/
inductive LRes (α : Type) where
  | ok (val : α)
  | err (msg : String)
  | panicked

/-- Outcome paired with the diagnostics reported through the error handler
during the step, in order. -/
abbrev LOut (α : Type) := List Diag × LRes α

/-- Embedding of the free function `get_type` (ast_to_mir.rs). -/
def getType (tId : Nat) (s : LState) : LRes MTy :=
  match s.typeGet tId with
  | Ty.any => .err "Invalid type in MIR generation"
  | Ty.bug => .err "Invalid type in MIR generation"
  | Ty.unit => .err "Invalid type in MIR generation"
  | Ty.i32 => .ok .i32
  | Ty.i64 => .ok .i64
  | Ty.f32 => .ok .f32
  | Ty.f64 => .ok .f64
  | Ty.bool => .ok .i32
  | Ty.fn _ _ => .err "Function as a value are not yet implemented"

/-- Embedding of the free function `convert_type` (ast_to_mir.rs). -/
def convertType : Ty → LRes MTy
  | Ty.any => .err "Invalid type in MIR generation"
  | Ty.bug => .err "Invalid type in MIR generation"
  | Ty.unit => .err "Invalid type in MIR generation"
  | Ty.i32 => .ok .i32
  | Ty.i64 => .ok .i64
  | Ty.f32 => .ok .f32
  | Ty.f64 => .ok .f64
  | Ty.bool => .ok .i32
  | Ty.fn _ _ => .err "Function as a value are not yet implemented"

/-- `collect::<Result<Vec<_>, _>>` over `convert_type`. -/
def convertTypes : List Ty → LRes (List MTy)
  | [] => .ok []
  | t :: ts =>
    match convertType t with
    | .ok m =>
      match convertTypes ts with
      | .ok ms => .ok (m :: ms)
      | .err e => .err e
      | .panicked => .panicked
    | .err e => .err e
    | .panicked => .panicked

/-- The three shapes a source binary operator can lower to (`FromBinop` in
ast_to_mir.rs). -/
inductive FromBinop where
  | binop (b : MBinop)
  | relop (r : MRelop)
  | logical (l : Bool)

/-- Embedding of the free function `get_binop` (ast_to_mir.rs); the
`logical` payload is `true` for And, `false` for Or. -/
def getBinop (binop : ABinop) (t : MTy) : LRes FromBinop :=
  match t with
  | .i32 =>
    match binop with
    | .plus => .ok (.binop .i32Add)
    | .minus => .ok (.binop .i32Sub)
    | .multiply => .ok (.binop .i32Mul)
    | .divide => .ok (.binop .i32Div)
    | .remainder => .ok (.binop .i32Rem)
    | .equal => .ok (.relop .i32Eq)
    | .notEqual => .ok (.relop .i32Ne)
    | .less => .ok (.relop .i32Lt)
    | .greater => .ok (.relop .i32Gt)
    | .lessEqual => .ok (.relop .i32Le)
    | .greaterEqual => .ok (.relop .i32Ge)
    | .andOp => .ok (.logical true)
    | .orOp => .ok (.logical false)
  | .i64 =>
    match binop with
    | .plus => .ok (.binop .i64Add)
    | .minus => .ok (.binop .i64Sub)
    | .multiply => .ok (.binop .i64Mul)
    | .divide => .ok (.binop .i64Div)
    | .remainder => .ok (.binop .i64Rem)
    | .equal => .ok (.relop .i64Eq)
    | .notEqual => .ok (.relop .i64Ne)
    | .less => .ok (.relop .i64Lt)
    | .greater => .ok (.relop .i64Gt)
    | .lessEqual => .ok (.relop .i64Le)
    | .greaterEqual => .ok (.relop .i64Ge)
    | _ => .err "Bad binary operator for i64"
  | .f32 =>
    match binop with
    | .plus => .ok (.binop .f32Add)
    | .minus => .ok (.binop .f32Sub)
    | .multiply => .ok (.binop .f32Mul)
    | .divide => .ok (.binop .f32Div)
    | .equal => .ok (.relop .f32Eq)
    | .notEqual => .ok (.relop .f32Ne)
    | .less => .ok (.relop .f32Lt)
    | .greater => .ok (.relop .f32Gt)
    | .lessEqual => .ok (.relop .f32Le)
    | .greaterEqual => .ok (.relop .f32Ge)
    | _ => .err "Bad binary operator for f32"
  | .f64 =>
    match binop with
    | .plus => .ok (.binop .f64Add)
    | .minus => .ok (.binop .f64Sub)
    | .multiply => .ok (.binop .f64Mul)
    | .divide => .ok (.binop .f64Div)
    | .equal => .ok (.relop .f64Eq)
    | .notEqual => .ok (.relop .f64Ne)
    | .less => .ok (.relop .f64Lt)
    | .greater => .ok (.relop .f64Gt)
    | .lessEqual => .ok (.relop .f64Le)
    | .greaterEqual => .ok (.relop .f64Ge)
    | _ => .err "Bad binary operator for f64"

-- ——————————————— The lowering functions of ast_to_mir.rs ——————————————— --

mutual
/-- Embedding of `MIRProducer::reduce_expr` (ast_to_mir.rs): appends to
`stmts` the statements that evaluate the expression, threading the
basic-block counter and collecting the error-sink reports in order.
`Err` results propagate (the `?` operator); the `try_into().unwrap()` on an
integer literal panics when the `u64` value does not fit the resolved
machine type (`> 2^31 - 1` for I32, `> 2^63 - 1` for I64). -/
def reduceExpr : Expr → List MStmt → LState → LOut (List MStmt × LState)
  | .literal (.integer val tId), stmts, s =>
    (match getType tId s with
    | .err m => ([], .err m)
    | .panicked => ([], .panicked)
    | .ok .i32 =>
      if val ≤ 2 ^ 31 - 1 then ([], .ok (stmts ++ [.const (.i32 (Int.ofNat val))], s))
      else ([], .panicked)
    | .ok .i64 =>
      if val ≤ 2 ^ 63 - 1 then ([], .ok (stmts ++ [.const (.i64 (Int.ofNat val))], s))
      else ([], .panicked)
    | .ok _ => ([], .err "Integer constant of non integer type."))
  | .literal (.float bits tId), stmts, s =>
    (match getType tId s with
    | .err m => ([], .err m)
    | .panicked => ([], .panicked)
    | .ok .f32 => ([], .ok (stmts ++ [.const (.f32 (f32OfF64 bits))], s))
    | .ok .f64 => ([], .ok (stmts ++ [.const (.f64 bits)], s))
    | .ok _ => ([], .err "Float constant of non float type."))
  | .literal (.boolean val), stmts, s =>
    ([], .ok (stmts ++ [.const (.i32 (if val then 1 else 0))], s))
  | .varE nId, stmts, s => ([], .ok (stmts ++ [.get nId], s))
  | .functionE, _, _ => ([], .err "Function as expression are not yet supported.")
  | .binary left binop right _ opTId, stmts, s =>
    (match getType opTId s with
    | .err m => ([], .err m)
    | .panicked => ([], .panicked)
    | .ok t =>
      match getBinop binop t with
      | .err m => ([], .err m)
      | .panicked => ([], .panicked)
      | .ok (.binop b) =>
        match reduceExpr left stmts s with
        | (d1, .err m) => (d1, .err m)
        | (d1, .panicked) => (d1, .panicked)
        | (d1, .ok (stmts1, s1)) =>
          match reduceExpr right stmts1 s1 with
          | (d2, .err m) => (d1 ++ d2, .err m)
          | (d2, .panicked) => (d1 ++ d2, .panicked)
          | (d2, .ok (stmts2, s2)) => (d1 ++ d2, .ok (stmts2 ++ [.binop b], s2))
      | .ok (.relop r) =>
        match reduceExpr left stmts s with
        | (d1, .err m) => (d1, .err m)
        | (d1, .panicked) => (d1, .panicked)
        | (d1, .ok (stmts1, s1)) =>
          match reduceExpr right stmts1 s1 with
          | (d2, .err m) => (d1 ++ d2, .err m)
          | (d2, .panicked) => (d1 ++ d2, .panicked)
          | (d2, .ok (stmts2, s2)) => (d1 ++ d2, .ok (stmts2 ++ [.relop r], s2))
      | .ok (.logical true) =>
        -- And: allocate the if id, lower the right operand into a fresh
        -- vector (the then branch), then lower the left operand
        let p := s.freshBbId
        match reduceExpr right [] p.2 with
        | (d1, .err m) => (d1, .err m)
        | (d1, .panicked) => (d1, .panicked)
        | (d1, .ok (thenStmts, s2)) =>
          match reduceExpr left stmts s2 with
          | (d2, .err m) => (d1 ++ d2, .err m)
          | (d2, .panicked) => (d1 ++ d2, .panicked)
          | (d2, .ok (stmts2, s3)) =>
            (d1 ++ d2, .ok (stmts2 ++
              [.blockS (.ifElse p.1 thenStmts [.const (.i32 0)] (some .i32))], s3))
      | .ok (.logical false) =>
        -- Or: the right operand becomes the else branch
        let p := s.freshBbId
        match reduceExpr right [] p.2 with
        | (d1, .err m) => (d1, .err m)
        | (d1, .panicked) => (d1, .panicked)
        | (d1, .ok (elseStmts, s2)) =>
          match reduceExpr left stmts s2 with
          | (d2, .err m) => (d1 ++ d2, .err m)
          | (d2, .panicked) => (d1 ++ d2, .panicked)
          | (d2, .ok (stmts2, s3)) =>
            (d1 ++ d2, .ok (stmts2 ++
              [.blockS (.ifElse p.1 [.const (.i32 1)] elseStmts (some .i32))], s3)))
  | .unary unop e tId loc, stmts, s =>
    (match getType tId s with
    | .err m => ([], .err m)
    | .panicked => ([], .panicked)
    | .ok t =>
      let pre : List MStmt × List Diag :=
        match unop, t with
        | .minus, .i32 => ([.const (.i32 0)], [])
        | .minus, .i64 => ([.const (.i64 0)], [])
        | .minus, _ => ([], [])
        | .not, .i32 => ([.const (.i32 1)], [])
        | .not, _ =>
          ([], [(loc, "Not applied to something else than a boolean (I32) → error in type phase")])
      match reduceExpr e (stmts ++ pre.1) s with
      | (d, .err m) => (pre.2 ++ d, .err m)
      | (d, .panicked) => (pre.2 ++ d, .panicked)
      | (d, .ok (stmts1, s1)) =>
        let stmt : MStmt :=
          match unop, t with
          | .minus, .i32 => .binop .i32Sub
          | .minus, .i64 => .binop .i64Sub
          | .minus, .f32 => .unop .f32Neg
          | .minus, .f64 => .unop .f64Neg
          | .not, _ => .binop .i32Xor
        (pre.2 ++ d, .ok (stmts1 ++ [stmt], s1)))
  | .callDirect funId args, stmts, s =>
    (match reduceExprList args stmts s with
    | (d, .err m) => (d, .err m)
    | (d, .panicked) => (d, .panicked)
    | (d, .ok (stmts1, s1)) => (d, .ok (stmts1 ++ [.call (.direct funId)], s1)))
  | .callIndirect loc, stmts, s =>
    ([(loc, "Indirect call are not yet supported")], .ok (stmts, s))

/-- The `for arg in args` loop of the `CallDirect` case. -/
def reduceExprList : List Expr → List MStmt → LState → LOut (List MStmt × LState)
  | [], stmts, s => ([], .ok (stmts, s))
  | e :: rest, stmts, s =>
    (match reduceExpr e stmts s with
    | (d, .err m) => (d, .err m)
    | (d, .panicked) => (d, .panicked)
    | (d, .ok (stmts1, s1)) =>
      match reduceExprList rest stmts1 s1 with
      | (d2, r) => (d ++ d2, r))
end

mutual
/-- Embedding of the body of the `for statement in block.stmts` loop of
`MIRProducer::reduce_block_rec` (ast_to_mir.rs): lowers one statement,
appending to `stmts`. -/
def reduceStmt : Stmt → List MStmt → LState → LOut (List MStmt × LState)
  | .assign varNId e, stmts, s =>
    (match reduceExpr e stmts s with
    | (d, .err m) => (d, .err m)
    | (d, .panicked) => (d, .panicked)
    | (d, .ok (stmts1, s1)) => (d, .ok (stmts1 ++ [.set varNId], s1)))
  | .letS varNId e, stmts, s =>
    (match reduceExpr e stmts s with
    | (d, .err m) => (d, .err m)
    | (d, .panicked) => (d, .panicked)
    | (d, .ok (stmts1, s1)) => (d, .ok (stmts1 ++ [.set varNId], s1)))
  | .exprS e, stmts, s =>
    (match reduceExpr e stmts s with
    | (d, .err m) => (d, .err m)
    | (d, .panicked) => (d, .panicked)
    | (d, .ok (stmts1, s1)) => (d, .ok (stmts1 ++ [.parametric .drop], s1)))
  | .returnS none, stmts, s => ([], .ok (stmts ++ [.control .ret], s))
  | .returnS (some e), stmts, s =>
    (match reduceExpr e stmts s with
    | (d, .err m) => (d, .err m)
    | (d, .panicked) => (d, .panicked)
    | (d, .ok (stmts1, s1)) => (d, .ok (stmts1 ++ [.control .ret], s1)))
  | .whileS cond body, stmts, s =>
    -- block_id, then loop_id, then the condition into a fresh vector
    let pb := s.freshBbId
    let pl := pb.2.freshBbId
    (match reduceExpr cond [] pl.2 with
    | (d1, .err m) => (d1, .err m)
    | (d1, .panicked) => (d1, .panicked)
    | (d1, .ok (loopStmts1, s1)) =>
      match reduceBlockRec body (loopStmts1 ++
          [.const (.i32 1), .binop .i32Xor, .control (.brIf pb.1)]) s1 with
      | (d2, .err m) => (d1 ++ d2, .err m)
      | (d2, .panicked) => (d1 ++ d2, .panicked)
      | (d2, .ok (loopStmts2, s2)) =>
        (d1 ++ d2, .ok (stmts ++
          [.blockS (.block pb.1
            [.blockS (.loop pl.1 (loopStmts2 ++ [.control (.br pl.1)]) none)]
            none)], s2)))
  | .ifS cond thenB elseB, stmts, s =>
    (match reduceExpr cond stmts s with
    | (d1, .err m) => (d1, .err m)
    | (d1, .panicked) => (d1, .panicked)
    | (d1, .ok (stmts1, s1)) =>
      let pi := s1.freshBbId
      match reduceBlockRec thenB [] pi.2 with
      | (d2, .err m) => (d1 ++ d2, .err m)
      | (d2, .panicked) => (d1 ++ d2, .panicked)
      | (d2, .ok (thenStmts, s2)) =>
        match reduceElse elseB s2 with
        | (d3, .err m) => (d1 ++ d2 ++ d3, .err m)
        | (d3, .panicked) => (d1 ++ d2 ++ d3, .panicked)
        | (d3, .ok (elseStmts, s3)) =>
          (d1 ++ d2 ++ d3, .ok (stmts1 ++
            [.blockS (.ifElse pi.1 thenStmts elseStmts none)], s3)))

/-- The `if let Some(else_block) = else_block { ... } else { vec![] }` of
the `If` case of `reduce_block_rec` (ast_to_mir.rs). -/
def reduceElse : Option (List Stmt) → LState → LOut (List MStmt × LState)
  | some els, s => reduceBlockRec els [] s
  | none, s => ([], .ok ([], s))

/-- Embedding of `MIRProducer::reduce_block_rec` (ast_to_mir.rs): lowers
the statements of a block in order, appending to `stmts`. -/
def reduceBlockRec : List Stmt → List MStmt → LState → LOut (List MStmt × LState)
  | [], stmts, s => ([], .ok (stmts, s))
  | stmt :: rest, stmts, s =>
    (match reduceStmt stmt stmts s with
    | (d, .err m) => (d, .err m)
    | (d, .panicked) => (d, .panicked)
    | (d, .ok (stmts1, s1)) =>
      match reduceBlockRec rest stmts1 s1 with
      | (d2, r) => (d ++ d2, r))
end

/-- Embedding of `MIRProducer::reduce_block` (ast_to_mir.rs). -/
def reduceBlock (block : List Stmt) (s : LState) : LOut (MBlock × LState) :=
  let p := s.freshBbId
  match reduceBlockRec block [] p.2 with
  | (d, .err m) => (d, .err m)
  | (d, .panicked) => (d, .panicked)
  | (d, .ok (stmts, s1)) => (d, .ok (.block p.1 stmts none, s1))

/-- Embedding of `MIRProducer::reduce_asm_statement` (ast_to_mir.rs). -/
def reduceAsmStatement : AsmStatement → LState → LRes MStmt
  | .constS val, _ => .ok (.const val)
  | .control .ret, _ => .ok (.control .ret)
  | .parametric .drop, _ => .ok (.parametric .drop)

/-- Embedding of `MIRProducer::reduce_asm_statements` (ast_to_mir.rs): a
failing statement is reported through `report_no_loc` (location 0 here)
and skipped. -/
def reduceAsmStatements : List AsmStatement → LState → LOut (List MStmt)
  | [], _ => ([], .ok [])
  | stmt :: rest, s =>
    (match reduceAsmStatement stmt s with
    | .ok m =>
      match reduceAsmStatements rest s with
      | (d, .ok ms) => (d, .ok (m :: ms))
      | (d, .err e) => (d, .err e)
      | (d, .panicked) => (d, .panicked)
    | .err m =>
      match reduceAsmStatements rest s with
      | (d, r) => ((0, m) :: d, r)
    | .panicked => ([], .panicked))

/-- Embedding of `MIRProducer::get_locals` (ast_to_mir.rs). -/
def getLocals : List Nat → LState → LRes (List MLocal)
  | [], _ => .ok []
  | nId :: rest, s =>
    let conv : LRes MTy :=
      match s.typeGet (s.nameGet nId).tId with
      | Ty.i32 => .ok .i32
      | Ty.i64 => .ok .i64
      | Ty.f32 => .ok .f32
      | Ty.f64 => .ok .f64
      | Ty.bool => .ok .i32
      | _ => .err "Invalid parameter type"
    match conv with
    | .ok t =>
      match getLocals rest s with
      | .ok ls => .ok (⟨nId, t⟩ :: ls)
      | .err e => .err e
      | .panicked => .panicked
    | .err e => .err e
    | .panicked => .panicked

/-- Embedding of `MIRProducer::reduce_fun` (ast_to_mir.rs).  On an `Err`
outcome the state is not returned (the caller drops this function); in
Rust the partially advanced basic-block counter persists, which only
shifts the numeric values of later block ids and affects no property
stated in this file. -/
def reduceFun (f : NameFun) (s : LState) : LOut (MFunction × LState) :=
  let funName := s.nameGet f.nId
  let sig : List Diag × LRes (List MTy × List MTy) :=
    match s.typeGet funName.tId with
    | Ty.fn paramT retT =>
      (match convertTypes paramT with
      | .ok ps =>
        match convertTypes retT with
        | .ok rs => ([], .ok (ps, rs))
        | .err e => ([], .err e)
        | .panicked => ([], .panicked)
      | .err e => ([], .err e)
      | .panicked => ([], .panicked))
    | _ => ([(f.loc, "Function does not have function type")], .ok ([], []))
  match sig with
  | (d0, .err m) => (d0, .err m)
  | (d0, .panicked) => (d0, .panicked)
  | (d0, .ok (paramT, retT)) =>
    match getLocals f.locals s with
    | .err m => (d0, .err m)
    | .panicked => (d0, .panicked)
    | .ok locals =>
      match (match f.body with
        | .zephyr block => reduceBlock block s
        | .asm stmts =>
          let p := s.freshBbId
          (match reduceAsmStatements stmts p.2 with
          | (d, .ok ms) => (d, .ok (MBlock.block p.1 ms none, p.2))
          | (d, .err m) => (d, .err m)
          | (d, .panicked) => (d, .panicked))) with
      | (d1, .err m) => (d0 ++ d1, .err m)
      | (d1, .panicked) => (d0 ++ d1, .panicked)
      | (d1, .ok (block, s1)) =>
        (d0 ++ d1, .ok
          (MFunction.mk f.ident f.params paramT retT locals block
            f.isPub f.exposed f.funId, s1))

/-- The `for fun in prog.funs` loop of `MIRProducer::reduce`: an `Err`
from `reduce_fun` is reported via `report_internal_no_loc` (location 0
here) and the function is skipped; a panic aborts everything. -/
def reduceFuns : List NameFun → LState → LOut (List MFunction × LState)
  | [], s => ([], .ok ([], s))
  | f :: rest, s =>
    (match reduceFun f s with
    | (d, .panicked) => (d, .panicked)
    | (d, .err m) =>
      match reduceFuns rest s with
      | (d2, r) => (d ++ [(0, m)] ++ d2, r)
    | (d, .ok (mf, s1)) =>
      match reduceFuns rest s1 with
      | (d2, .ok (mfs, s2)) => (d ++ d2, .ok (mf :: mfs, s2))
      | (d2, .err m) => (d ++ d2, .err m)
      | (d2, .panicked) => (d ++ d2, .panicked))

/-- Embedding of `MIRProducer::reduce` (ast_to_mir.rs), the public
lowering interface: lowers every function of the typed program with a
fresh basic-block counter and copies the public declarations. -/
def reduce (prog : TypedProgram) : LOut MProgram :=
  match reduceFuns prog.funs ⟨prog.names, prog.types, 0⟩ with
  | (d, .panicked) => (d, .panicked)
  | (d, .err m) => (d, .err m)
  | (d, .ok (funs, _)) => (d, .ok ⟨funs, prog.pubDecls⟩)

-- ————————————— Branch-target well-formedness (claims C2, C9) ————————————— --

mutual
/-- A statement contains no branch at all. -/
def MStmt.noBr : MStmt → Bool
  | .control (.br _) => false
  | .control (.brIf _) => false
  | .blockS b => MBlock.noBr b
  | _ => true

/-- A block contains no branch at all. -/
def MBlock.noBr : MBlock → Bool
  | .block _ stmts _ => MStmtList.noBr stmts
  | .loop _ stmts _ => MStmtList.noBr stmts
  | .ifElse _ thenS elseS _ => MStmtList.noBr thenS && MStmtList.noBr elseS

/-- No statement of the list contains a branch. -/
def MStmtList.noBr : List MStmt → Bool
  | [] => true
  | x :: xs => MStmt.noBr x && MStmtList.noBr xs
end

mutual
/-- Every branch in the statement targets the id of an enclosing `Block`
or `Loop` (`ctx` lists the ids of the enclosing blocks). -/
def MStmt.brOk (ctx : List Nat) : MStmt → Bool
  | .control (.br id) => ctx.contains id
  | .control (.brIf id) => ctx.contains id
  | .blockS b => MBlock.brOk ctx b
  | _ => true

/-- Branch well-formedness for a block: `Block` and `Loop` add their id to
the context; an `If` does not (the claim only allows `Block`/`Loop`
targets). -/
def MBlock.brOk (ctx : List Nat) : MBlock → Bool
  | .block id stmts _ => MStmtList.brOk (id :: ctx) stmts
  | .loop id stmts _ => MStmtList.brOk (id :: ctx) stmts
  | .ifElse _ thenS elseS _ => MStmtList.brOk ctx thenS && MStmtList.brOk ctx elseS

/-- Branch well-formedness for a statement list. -/
def MStmtList.brOk (ctx : List Nat) : List MStmt → Bool
  | [] => true
  | x :: xs => MStmt.brOk ctx x && MStmtList.brOk ctx xs
end

mutual
theorem stmt_brOk_of_noBr : ∀ (stmt : MStmt), MStmt.noBr stmt = true →
    ∀ ctx, MStmt.brOk ctx stmt = true
  | .control (.br _), h, _ => by cases h
  | .control (.brIf _), h, _ => by cases h
  | .blockS b, h, ctx => block_brOk_of_noBr b h ctx
  | .set _, _, _ => rfl
  | .get _, _, _ => rfl
  | .const _, _, _ => rfl
  | .unop _, _, _ => rfl
  | .binop _, _, _ => rfl
  | .relop _, _, _ => rfl
  | .control .ret, _, _ => rfl
  | .parametric _, _, _ => rfl
  | .call _, _, _ => rfl

theorem block_brOk_of_noBr : ∀ (b : MBlock), MBlock.noBr b = true →
    ∀ ctx, MBlock.brOk ctx b = true
  | .block id stmts t, h, ctx =>
    stmtList_brOk_of_noBr stmts h (id :: ctx)
  | .loop id stmts t, h, ctx =>
    stmtList_brOk_of_noBr stmts h (id :: ctx)
  | .ifElse id thenS elseS t, h, ctx => by
    simp only [MBlock.noBr, Bool.and_eq_true] at h
    simp only [MBlock.brOk, Bool.and_eq_true]
    exact ⟨stmtList_brOk_of_noBr thenS h.1 ctx, stmtList_brOk_of_noBr elseS h.2 ctx⟩

theorem stmtList_brOk_of_noBr : ∀ (l : List MStmt), MStmtList.noBr l = true →
    ∀ ctx, MStmtList.brOk ctx l = true
  | [], _, _ => rfl
  | x :: xs, h, ctx => by
    simp only [MStmtList.noBr, Bool.and_eq_true] at h
    simp only [MStmtList.brOk, Bool.and_eq_true]
    exact ⟨stmt_brOk_of_noBr x h.1 ctx, stmtList_brOk_of_noBr xs h.2 ctx⟩
end

theorem MStmtList.noBr_append {l1 l2 : List MStmt} (h1 : MStmtList.noBr l1 = true)
    (h2 : MStmtList.noBr l2 = true) : MStmtList.noBr (l1 ++ l2) = true := by
  induction l1 with
  | nil => exact h2
  | cons x xs ih =>
    simp only [MStmtList.noBr, Bool.and_eq_true] at h1 ⊢
    exact ⟨h1.1, ih h1.2⟩

theorem MStmtList.brOk_append {ctx : List Nat} {l1 l2 : List MStmt}
    (h1 : MStmtList.brOk ctx l1 = true) (h2 : MStmtList.brOk ctx l2 = true) :
    MStmtList.brOk ctx (l1 ++ l2) = true := by
  induction l1 with
  | nil => exact h2
  | cons x xs ih =>
    simp only [MStmtList.brOk, Bool.and_eq_true] at h1 ⊢
    exact ⟨h1.1, ih h1.2⟩

/-- One statement vector extends another (the lowering only appends). -/
def isPre (pre l : List MStmt) : Prop := ∃ new, l = pre ++ new

theorem isPre.refl (l : List MStmt) : isPre l l := ⟨[], by simp⟩

theorem isPre_append (l new : List MStmt) : isPre l (l ++ new) := ⟨new, rfl⟩

theorem isPre_trans {a b c : List MStmt} (h1 : isPre a b) (h2 : isPre b c) :
    isPre a c := by
  obtain ⟨n1, rfl⟩ := h1
  obtain ⟨n2, rfl⟩ := h2
  exact ⟨n1 ++ n2, by simp⟩

theorem MStmtList.brOk_single {ctx : List Nat} {x : MStmt}
    (h : MStmt.brOk ctx x = true) : MStmtList.brOk ctx [x] = true := by
  simp [MStmtList.brOk, h]

mutual
/-- On success, `reduce_expr` only appends to the given statement vector. -/
theorem reduceExpr_isPre : ∀ (e : Expr) (acc : List MStmt) (s : LState)
    (d : List Diag) (res : List MStmt) (s2 : LState),
    reduceExpr e acc s = (d, .ok (res, s2)) → isPre acc res
  | .literal (.integer val tId), acc, s, d, res, s2, h => by
    simp only [reduceExpr] at h
    split at h <;> try cases h
    · split at h <;> cases h
      exact isPre_append _ _
    · split at h <;> cases h
      exact isPre_append _ _
  | .literal (.float bits tId), acc, s, d, res, s2, h => by
    simp only [reduceExpr] at h
    split at h <;> cases h
    · exact isPre_append _ _
    · exact isPre_append _ _
  | .literal (.boolean val), acc, s, d, res, s2, h => by
    simp only [reduceExpr] at h
    cases h
    exact isPre_append _ _
  | .varE nId, acc, s, d, res, s2, h => by
    simp only [reduceExpr] at h
    cases h
    exact isPre_append _ _
  | .functionE, acc, s, d, res, s2, h => by
    simp only [reduceExpr] at h
    cases h
  | .binary left binop right tId opTId, acc, s, d, res, s2, h => by
    simp only [reduceExpr] at h
    split at h <;> try cases h
    rename_i t hgt
    split at h <;> try cases h
    · split at h <;> try cases h
      rename_i hred1
      split at h <;> cases h
      rename_i hred2
      exact isPre_trans (isPre_trans (reduceExpr_isPre left _ _ _ _ _ hred1)
        (reduceExpr_isPre right _ _ _ _ _ hred2)) (isPre_append _ _)
    · split at h <;> try cases h
      rename_i hred1
      split at h <;> cases h
      rename_i hred2
      exact isPre_trans (isPre_trans (reduceExpr_isPre left _ _ _ _ _ hred1)
        (reduceExpr_isPre right _ _ _ _ _ hred2)) (isPre_append _ _)
    · split at h <;> try cases h
      rename_i hred1
      split at h <;> cases h
      rename_i hred2
      exact isPre_trans (reduceExpr_isPre left _ _ _ _ _ hred2) (isPre_append _ _)
    · split at h <;> try cases h
      rename_i hred1
      split at h <;> cases h
      rename_i hred2
      exact isPre_trans (reduceExpr_isPre left _ _ _ _ _ hred2) (isPre_append _ _)
  | .unary unop e tId loc, acc, s, d, res, s2, h => by
    simp only [reduceExpr] at h
    split at h <;> try cases h
    rename_i t hgt
    split at h <;> cases h
    rename_i hred1
    exact isPre_trans (isPre_trans (isPre_append _ _)
      (reduceExpr_isPre e _ _ _ _ _ hred1)) (isPre_append _ _)
  | .callDirect funId args, acc, s, d, res, s2, h => by
    simp only [reduceExpr] at h
    split at h <;> cases h
    rename_i hred1
    exact isPre_trans (reduceExprList_isPre args _ _ _ _ _ hred1) (isPre_append _ _)
  | .callIndirect loc, acc, s, d, res, s2, h => by
    simp only [reduceExpr] at h
    cases h
    exact isPre.refl _

/-- On success, the argument loop of `reduce_expr` only appends. -/
theorem reduceExprList_isPre : ∀ (es : List Expr) (acc : List MStmt) (s : LState)
    (d : List Diag) (res : List MStmt) (s2 : LState),
    reduceExprList es acc s = (d, .ok (res, s2)) → isPre acc res
  | [], acc, s, d, res, s2, h => by
    simp only [reduceExprList] at h
    cases h
    exact isPre.refl _
  | e :: rest, acc, s, d, res, s2, h => by
    simp only [reduceExprList] at h
    split at h <;> try cases h
    rename_i x1 d1 st1 s1 hred1
    rcases hrec : reduceExprList rest st1 s1 with ⟨d2, r2⟩
    rw [hrec] at h
    cases r2 with
    | ok p2 =>
      obtain ⟨resL, sL⟩ := p2
      cases h
      exact isPre_trans (reduceExpr_isPre e _ _ _ _ _ hred1)
        (reduceExprList_isPre rest _ _ _ _ _ hrec)
    | err m => cases h
    | panicked => cases h
end

mutual
/-- On success, `reduce_expr` preserves branch-target well-formedness of
the statement vector under any context: the statements it appends contain
no branch at all. -/
theorem reduceExpr_brOk : ∀ (e : Expr) (acc : List MStmt) (s : LState)
    (d : List Diag) (res : List MStmt) (s2 : LState),
    reduceExpr e acc s = (d, .ok (res, s2)) →
    ∀ ctx, MStmtList.brOk ctx acc = true → MStmtList.brOk ctx res = true
  | .literal (.integer val tId), acc, s, d, res, s2, h => by
    simp only [reduceExpr] at h
    split at h <;> try cases h
    · split at h <;> cases h
      exact fun ctx hacc => MStmtList.brOk_append hacc rfl
    · split at h <;> cases h
      exact fun ctx hacc => MStmtList.brOk_append hacc rfl
  | .literal (.float bits tId), acc, s, d, res, s2, h => by
    simp only [reduceExpr] at h
    split at h <;> cases h
    · exact fun ctx hacc => MStmtList.brOk_append hacc rfl
    · exact fun ctx hacc => MStmtList.brOk_append hacc rfl
  | .literal (.boolean val), acc, s, d, res, s2, h => by
    simp only [reduceExpr] at h
    cases h
    exact fun ctx hacc => MStmtList.brOk_append hacc rfl
  | .varE nId, acc, s, d, res, s2, h => by
    simp only [reduceExpr] at h
    cases h
    exact fun ctx hacc => MStmtList.brOk_append hacc rfl
  | .functionE, acc, s, d, res, s2, h => by
    simp only [reduceExpr] at h
    cases h
  | .binary left binop right tId opTId, acc, s, d, res, s2, h => by
    simp only [reduceExpr] at h
    split at h <;> try cases h
    rename_i t hgt
    split at h <;> try cases h
    · split at h <;> try cases h
      rename_i hred1
      split at h <;> cases h
      rename_i hred2
      intro ctx hacc
      exact MStmtList.brOk_append
        (reduceExpr_brOk right _ _ _ _ _ hred2 ctx
          (reduceExpr_brOk left _ _ _ _ _ hred1 ctx hacc)) rfl
    · split at h <;> try cases h
      rename_i hred1
      split at h <;> cases h
      rename_i hred2
      intro ctx hacc
      exact MStmtList.brOk_append
        (reduceExpr_brOk right _ _ _ _ _ hred2 ctx
          (reduceExpr_brOk left _ _ _ _ _ hred1 ctx hacc)) rfl
    · -- And: the then branch is lowered into a fresh vector
      split at h <;> try cases h
      rename_i hred1
      split at h <;> cases h
      rename_i hred2
      intro ctx hacc
      refine MStmtList.brOk_append
        (reduceExpr_brOk left _ _ _ _ _ hred2 ctx hacc)
        (MStmtList.brOk_single ?_)
      simp only [MStmt.brOk, MBlock.brOk, Bool.and_eq_true]
      exact ⟨reduceExpr_brOk right _ _ _ _ _ hred1 ctx rfl, rfl⟩
    · -- Or: the else branch is lowered into a fresh vector
      split at h <;> try cases h
      rename_i hred1
      split at h <;> cases h
      rename_i hred2
      intro ctx hacc
      refine MStmtList.brOk_append
        (reduceExpr_brOk left _ _ _ _ _ hred2 ctx hacc)
        (MStmtList.brOk_single ?_)
      simp only [MStmt.brOk, MBlock.brOk, Bool.and_eq_true]
      exact ⟨rfl, reduceExpr_brOk right _ _ _ _ _ hred1 ctx rfl⟩
  | .unary unop e tId loc, acc, s, d, res, s2, h => by
    simp only [reduceExpr] at h
    split at h <;> try cases h
    rename_i t hgt
    split at h <;> cases h
    rename_i hred1
    intro ctx hacc
    refine MStmtList.brOk_append
      (reduceExpr_brOk e _ _ _ _ _ hred1 ctx (MStmtList.brOk_append hacc ?_))
      (MStmtList.brOk_single ?_)
    · cases unop <;> cases t <;> rfl
    · cases unop <;> cases t <;> rfl
  | .callDirect funId args, acc, s, d, res, s2, h => by
    simp only [reduceExpr] at h
    split at h <;> cases h
    rename_i hred1
    intro ctx hacc
    exact MStmtList.brOk_append
      (reduceExprList_brOk args _ _ _ _ _ hred1 ctx hacc) rfl
  | .callIndirect loc, acc, s, d, res, s2, h => by
    simp only [reduceExpr] at h
    cases h
    exact fun ctx hacc => hacc

/-- Branch-target preservation for the argument loop of `reduce_expr`. -/
theorem reduceExprList_brOk : ∀ (es : List Expr) (acc : List MStmt) (s : LState)
    (d : List Diag) (res : List MStmt) (s2 : LState),
    reduceExprList es acc s = (d, .ok (res, s2)) →
    ∀ ctx, MStmtList.brOk ctx acc = true → MStmtList.brOk ctx res = true
  | [], acc, s, d, res, s2, h => by
    simp only [reduceExprList] at h
    cases h
    exact fun ctx hacc => hacc
  | e :: rest, acc, s, d, res, s2, h => by
    simp only [reduceExprList] at h
    split at h <;> try cases h
    rename_i x1 d1 st1 s1 hred1
    rcases hrec : reduceExprList rest st1 s1 with ⟨d2, r2⟩
    rw [hrec] at h
    cases r2 with
    | ok p2 =>
      obtain ⟨resL, sL⟩ := p2
      cases h
      exact fun ctx hacc => reduceExprList_brOk rest _ _ _ _ _ hrec ctx
        (reduceExpr_brOk e _ _ _ _ _ hred1 ctx hacc)
    | err m => cases h
    | panicked => cases h
end

mutual
/-- On success, lowering one statement only appends to the statement
vector. -/
theorem reduceStmt_isPre : ∀ (stmt : Stmt) (acc : List MStmt) (s : LState)
    (d : List Diag) (res : List MStmt) (s2 : LState),
    reduceStmt stmt acc s = (d, .ok (res, s2)) → isPre acc res
  | .assign varNId e, acc, s, d, res, s2, h => by
    simp only [reduceStmt] at h
    split at h <;> cases h
    rename_i hred1
    exact isPre_trans (reduceExpr_isPre e _ _ _ _ _ hred1) (isPre_append _ _)
  | .letS varNId e, acc, s, d, res, s2, h => by
    simp only [reduceStmt] at h
    split at h <;> cases h
    rename_i hred1
    exact isPre_trans (reduceExpr_isPre e _ _ _ _ _ hred1) (isPre_append _ _)
  | .exprS e, acc, s, d, res, s2, h => by
    simp only [reduceStmt] at h
    split at h <;> cases h
    rename_i hred1
    exact isPre_trans (reduceExpr_isPre e _ _ _ _ _ hred1) (isPre_append _ _)
  | .returnS none, acc, s, d, res, s2, h => by
    simp only [reduceStmt] at h
    cases h
    exact isPre_append _ _
  | .returnS (some e), acc, s, d, res, s2, h => by
    simp only [reduceStmt] at h
    split at h <;> cases h
    rename_i hred1
    exact isPre_trans (reduceExpr_isPre e _ _ _ _ _ hred1) (isPre_append _ _)
  | .whileS cond body, acc, s, d, res, s2, h => by
    simp only [reduceStmt] at h
    split at h <;> try cases h
    rename_i hred1
    split at h <;> cases h
    exact isPre_append _ _
  | .ifS cond thenB elseB, acc, s, d, res, s2, h => by
    simp only [reduceStmt] at h
    split at h <;> try cases h
    rename_i hred1
    split at h <;> try cases h
    rename_i hred2
    split at h <;> cases h
    exact isPre_trans (reduceExpr_isPre cond _ _ _ _ _ hred1) (isPre_append _ _)

/-- On success, lowering a list of statements only appends to the
statement vector. -/
theorem reduceBlockRec_isPre : ∀ (l : List Stmt) (acc : List MStmt) (s : LState)
    (d : List Diag) (res : List MStmt) (s2 : LState),
    reduceBlockRec l acc s = (d, .ok (res, s2)) → isPre acc res
  | [], acc, s, d, res, s2, h => by
    simp only [reduceBlockRec] at h
    cases h
    exact isPre.refl _
  | stmt :: rest, acc, s, d, res, s2, h => by
    simp only [reduceBlockRec] at h
    split at h <;> try cases h
    rename_i x1 d1 st1 s1 hred1
    rcases hrec : reduceBlockRec rest st1 s1 with ⟨d2, r2⟩
    rw [hrec] at h
    cases r2 with
    | ok p2 =>
      obtain ⟨resL, sL⟩ := p2
      cases h
      exact isPre_trans (reduceStmt_isPre stmt _ _ _ _ _ hred1)
        (reduceBlockRec_isPre rest _ _ _ _ _ hrec)
    | err m => cases h
    | panicked => cases h
end

mutual
/-- On success, lowering one statement preserves branch-target
well-formedness of the statement vector under every context: every branch
the lowering emits targets a `Block` or `Loop` id it also emits. -/
theorem reduceStmt_brOk : ∀ (stmt : Stmt) (acc : List MStmt) (s : LState)
    (d : List Diag) (res : List MStmt) (s2 : LState),
    reduceStmt stmt acc s = (d, .ok (res, s2)) →
    ∀ ctx, MStmtList.brOk ctx acc = true → MStmtList.brOk ctx res = true
  | .assign varNId e, acc, s, d, res, s2, h => by
    simp only [reduceStmt] at h
    split at h <;> cases h
    rename_i hred1
    exact fun ctx hacc => MStmtList.brOk_append
      (reduceExpr_brOk e _ _ _ _ _ hred1 ctx hacc) rfl
  | .letS varNId e, acc, s, d, res, s2, h => by
    simp only [reduceStmt] at h
    split at h <;> cases h
    rename_i hred1
    exact fun ctx hacc => MStmtList.brOk_append
      (reduceExpr_brOk e _ _ _ _ _ hred1 ctx hacc) rfl
  | .exprS e, acc, s, d, res, s2, h => by
    simp only [reduceStmt] at h
    split at h <;> cases h
    rename_i hred1
    exact fun ctx hacc => MStmtList.brOk_append
      (reduceExpr_brOk e _ _ _ _ _ hred1 ctx hacc) rfl
  | .returnS none, acc, s, d, res, s2, h => by
    simp only [reduceStmt] at h
    cases h
    exact fun ctx hacc => MStmtList.brOk_append hacc rfl
  | .returnS (some e), acc, s, d, res, s2, h => by
    simp only [reduceStmt] at h
    split at h <;> cases h
    rename_i hred1
    exact fun ctx hacc => MStmtList.brOk_append
      (reduceExpr_brOk e _ _ _ _ _ hred1 ctx hacc) rfl
  | .whileS cond body, acc, s, d, res, s2, h => by
    simp only [reduceStmt] at h
    split at h <;> try cases h
    rename_i hred1
    split at h <;> cases h
    rename_i hred2
    intro ctx hacc
    refine MStmtList.brOk_append hacc (MStmtList.brOk_single ?_)
    simp only [MStmt.brOk, MBlock.brOk, MStmtList.brOk, Bool.and_eq_true,
      Bool.and_true]
    refine MStmtList.brOk_append
      (reduceBlockRec_brOk body _ _ _ _ _ hred2 _ ?_) (MStmtList.brOk_single ?_)
    · refine MStmtList.brOk_append
        (reduceExpr_brOk cond _ _ _ _ _ hred1 _ rfl) ?_
      simp [MStmtList.brOk, MStmt.brOk, List.contains_cons]
    · simp [MStmt.brOk, List.contains_cons]
  | .ifS cond thenB elseB, acc, s, d, res, s2, h => by
    simp only [reduceStmt] at h
    split at h <;> try cases h
    rename_i hred1
    split at h <;> try cases h
    rename_i hred2
    split at h <;> cases h
    rename_i hred3
    intro ctx hacc
    refine MStmtList.brOk_append
      (reduceExpr_brOk cond _ _ _ _ _ hred1 ctx hacc) (MStmtList.brOk_single ?_)
    simp only [MStmt.brOk, MBlock.brOk, Bool.and_eq_true]
    refine ⟨reduceBlockRec_brOk thenB _ _ _ _ _ hred2 ctx rfl, ?_⟩
    cases elseB with
    | none => simp only [reduceElse] at hred3; cases hred3; rfl
    | some els =>
      simp only [reduceElse] at hred3
      exact reduceBlockRec_brOk els _ _ _ _ _ hred3 ctx rfl

/-- On success, lowering a statement list preserves branch-target
well-formedness of the statement vector under every context. -/
theorem reduceBlockRec_brOk : ∀ (l : List Stmt) (acc : List MStmt) (s : LState)
    (d : List Diag) (res : List MStmt) (s2 : LState),
    reduceBlockRec l acc s = (d, .ok (res, s2)) →
    ∀ ctx, MStmtList.brOk ctx acc = true → MStmtList.brOk ctx res = true
  | [], acc, s, d, res, s2, h => by
    simp only [reduceBlockRec] at h
    cases h
    exact fun ctx hacc => hacc
  | stmt :: rest, acc, s, d, res, s2, h => by
    simp only [reduceBlockRec] at h
    split at h <;> try cases h
    rename_i x1 d1 st1 s1 hred1
    rcases hrec : reduceBlockRec rest st1 s1 with ⟨d2, r2⟩
    rw [hrec] at h
    cases r2 with
    | ok p2 =>
      obtain ⟨resL, sL⟩ := p2
      cases h
      exact fun ctx hacc => reduceBlockRec_brOk rest _ _ _ _ _ hrec ctx
        (reduceStmt_brOk stmt _ _ _ _ _ hred1 ctx hacc)
    | err m => cases h
    | panicked => cases h
end

/-- `reduce_asm_statement` never emits a branch (only `Const`, `Return`
and `Drop` are accepted). -/
theorem reduceAsmStatement_noBr (stmt : AsmStatement) (s : LState) (m : MStmt)
    (h : reduceAsmStatement stmt s = .ok m) : MStmt.noBr m = true := by
  cases stmt with
  | constS val => simp only [reduceAsmStatement] at h; cases h; rfl
  | control c => cases c; simp only [reduceAsmStatement] at h; cases h; rfl
  | parametric p => cases p; simp only [reduceAsmStatement] at h; cases h; rfl

/-- The statements produced by `reduce_asm_statements` contain no branch
at all. -/
theorem reduceAsmStatements_noBr : ∀ (l : List AsmStatement) (s : LState)
    (d : List Diag) (ms : List MStmt),
    reduceAsmStatements l s = (d, .ok ms) → MStmtList.noBr ms = true
  | [], s, d, ms, h => by
    simp only [reduceAsmStatements] at h
    cases h
    rfl
  | stmt :: rest, s, d, ms, h => by
    simp only [reduceAsmStatements] at h
    split at h
    · rename_i m hok
      split at h <;> cases h
      rename_i hrec
      simp only [MStmtList.noBr, Bool.and_eq_true]
      exact ⟨reduceAsmStatement_noBr stmt s m hok,
        reduceAsmStatements_noBr rest _ _ _ hrec⟩
    · rename_i m hok
      rcases hrec : reduceAsmStatements rest s with ⟨d2, r2⟩
      rw [hrec] at h
      cases r2 with
      | ok ms2 =>
        cases h
        exact reduceAsmStatements_noBr rest _ _ _ hrec
      | err e => cases h
      | panicked => cases h
    · cases h

/-- Every branch of the body of a function produced by `reduce_fun`
targets an enclosing `Block` or `Loop`. -/
theorem reduceFun_brOk (f : NameFun) (s : LState) (d : List Diag)
    (mf : MFunction) (s1 : LState)
    (h : reduceFun f s = (d, .ok (mf, s1))) : MBlock.brOk [] mf.body = true := by
  simp only [reduceFun] at h
  split at h <;> try cases h
  rename_i d0 paramT retT hsig
  split at h <;> try cases h
  rename_i locals hlocals
  split at h <;> cases h
  rename_i d1 block hbody
  show MBlock.brOk [] block = true
  split at hbody
  · rename_i blk hfb
    simp only [reduceBlock] at hbody
    split at hbody <;> cases hbody
    rename_i hbr
    exact reduceBlockRec_brOk blk _ _ _ _ _ hbr _ rfl
  · rename_i stmts hfb
    split at hbody <;> cases hbody
    rename_i ms hms
    exact stmtList_brOk_of_noBr _ (reduceAsmStatements_noBr stmts _ _ _ hms) _

/-- Every function in the output of the `for fun in prog.funs` loop has a
branch-well-formed body. -/
theorem reduceFuns_brOk : ∀ (fs : List NameFun) (s : LState) (d : List Diag)
    (mfs : List MFunction) (s2 : LState),
    reduceFuns fs s = (d, .ok (mfs, s2)) →
    ∀ mf ∈ mfs, MBlock.brOk [] mf.body = true
  | [], s, d, mfs, s2, h => by
    simp only [reduceFuns] at h
    cases h
    intro mf hm
    cases hm
  | f :: rest, s, d, mfs, s2, h => by
    simp only [reduceFuns] at h
    split at h <;> try cases h
    · rename_i d1 m hfun
      rcases hrec : reduceFuns rest s with ⟨d2, r2⟩
      rw [hrec] at h
      cases r2 with
      | ok p2 =>
        obtain ⟨mfs2, sL⟩ := p2
        cases h
        exact reduceFuns_brOk rest _ _ _ _ hrec
      | err m2 => cases h
      | panicked => cases h
    · rename_i d1 mf1 s1 hfun
      split at h <;> cases h
      rename_i hrec
      intro mf hm
      rcases List.mem_cons.mp hm with hm | hm
      · subst hm
        exact reduceFun_brOk f s _ _ _ hfun
      · exact reduceFuns_brOk rest _ _ _ _ hrec mf hm

/-- C2: lowering `while cond { body }` emits, after the incoming
statements, exactly one outer `Block` carrying the first fresh id whose
sole statement is a `Loop` carrying the second fresh id; the loop body is
the lowered condition, then `Const I32(1)`, `Binop I32Xor`,
`BrIf(block_id)`, then the lowered body statements, then `Br(loop_id)`
(the body lowering appends to the condition prelude, so the loop
statements decompose as that prelude followed by the body's own
statements). -/
theorem c2_while_lowering (cond : Expr) (body : List Stmt) (acc : List MStmt)
    (s s1 s2 : LState) (d1 d2 : List Diag) (condStmts bodyAcc : List MStmt)
    (hcond : reduceExpr cond [] s.freshBbId.2.freshBbId.2 =
      (d1, .ok (condStmts, s1)))
    (hbody : reduceBlockRec body (condStmts ++
      [.const (.i32 1), .binop .i32Xor, .control (.brIf s.freshBbId.1)]) s1 =
      (d2, .ok (bodyAcc, s2))) :
    reduceStmt (.whileS cond body) acc s = (d1 ++ d2, .ok (acc ++
      [.blockS (.block s.freshBbId.1
        [.blockS (.loop s.freshBbId.2.freshBbId.1
          (bodyAcc ++ [.control (.br s.freshBbId.2.freshBbId.1)]) none)]
        none)], s2)) ∧
    ∃ bodyNew, bodyAcc = condStmts ++
      [.const (.i32 1), .binop .i32Xor, .control (.brIf s.freshBbId.1)] ++
      bodyNew := by
  constructor
  · simp only [reduceStmt, hcond, hbody]
  · obtain ⟨n, hn⟩ := reduceBlockRec_isPre body _ _ _ _ _ hbody
    exact ⟨n, hn⟩

theorem c2_witness :
    (reduceStmt (.whileS (.literal (.boolean true)) []) [] ⟨[], [], 0⟩ =
      ([], .ok ([.blockS (.block 0
        [.blockS (.loop 1
          [.const (.i32 1), .const (.i32 1), .binop .i32Xor,
           .control (.brIf 0), .control (.br 1)] none)] none)],
        ⟨[], [], 2⟩))) ∧
    ∃ bodyNew, ([.const (.i32 1), .const (.i32 1), .binop .i32Xor,
      .control (.brIf 0)] : List MStmt) =
      [.const (.i32 1)] ++
      [.const (.i32 1), .binop .i32Xor, .control (.brIf 0)] ++ bodyNew :=
  c2_while_lowering (.literal (.boolean true)) [] [] ⟨[], [], 0⟩ ⟨[], [], 2⟩
    ⟨[], [], 2⟩ [] [] [.const (.i32 1)]
    [.const (.i32 1), .const (.i32 1), .binop .i32Xor, .control (.brIf 0)]
    rfl rfl

/-- C9: in a successfully lowered program, every `Br`/`BrIf` statement of
the emitted MIR targets the id of an enclosing `Block` or `Loop` (checked
by `MBlock.brOk`, which walks every function body tracking the ids of the
enclosing `Block`s and `Loop`s). -/
theorem c9_br_targets_enclosing (prog : TypedProgram) (d : List Diag)
    (mir : MProgram) (h : reduce prog = (d, .ok mir)) :
    ∀ mf ∈ mir.funs, MBlock.brOk [] mf.body = true := by
  simp only [reduce] at h
  split at h <;> cases h
  rename_i funs sEnd hfuns
  exact reduceFuns_brOk prog.funs _ _ _ _ hfuns

theorem c9_witness :
    MBlock.brOk [] (MFunction.mk "f" [] [] [] []
      (.block 0 [.blockS (.block 1
        [.blockS (.loop 2
          [.const (.i32 1), .const (.i32 1), .binop .i32Xor,
           .control (.brIf 1), .const (.i32 0), .parametric .drop,
           .control (.br 2)] none)] none)] none)
      false false 0).body = true :=
  c9_br_targets_enclosing
    ⟨[⟨0, [], [], .zephyr [.whileS (.literal (.boolean true))
        [.exprS (.literal (.boolean false))]], "f", false, false, 0, 0⟩],
     [⟨0⟩], [Ty.fn [] []], []⟩ []
    (MProgram.mk [MFunction.mk "f" [] [] [] []
      (.block 0 [.blockS (.block 1
        [.blockS (.loop 2
          [.const (.i32 1), .const (.i32 1), .binop .i32Xor,
           .control (.brIf 1), .const (.i32 0), .parametric .drop,
           .control (.br 2)] none)] none)] none)
      false false 0] []) rfl
    (MFunction.mk "f" [] [] [] []
      (.block 0 [.blockS (.block 1
        [.blockS (.loop 2
          [.const (.i32 1), .const (.i32 1), .binop .i32Xor,
           .control (.brIf 1), .const (.i32 0), .parametric .drop,
           .control (.br 2)] none)] none)] none)
      false false 0) (List.Mem.head _)

/-- C10: an integer literal is converted into its resolved machine type
with `try_into().unwrap()`; when the value does not fit (here any value
above `2^31 - 1` resolved to `I32`) the lowering panics instead of
reporting through the error sink, and this failure branch is reachable
from the public `reduce` interface: a well-typed program containing the
literal `2147483648 : i32` makes `reduce` panic with no diagnostic
reported. -/
theorem c10_oversized_literal_panics :
    (∀ (val tId : Nat) (acc : List MStmt) (s : LState),
      getType tId s = .ok .i32 → 2 ^ 31 - 1 < val →
      reduceExpr (.literal (.integer val tId)) acc s = ([], .panicked)) ∧
    reduce ⟨[⟨0, [], [], .zephyr [.exprS (.literal (.integer 2147483648 1))],
      "f", false, false, 0, 0⟩], [⟨0⟩], [Ty.fn [] [], Ty.i32], []⟩ =
      ([], .panicked) := by
  constructor
  · intro val tId acc s hty hbig
    simp only [reduceExpr, hty]
    rw [if_neg (by omega)]
  · rfl

theorem c10_witness :
    reduceExpr (.literal (.integer 2147483648 1)) []
      ⟨[⟨0⟩], [Ty.fn [] [], Ty.i32], 0⟩ = ([], .panicked) :=
  c10_oversized_literal_panics.1 2147483648 1 []
    ⟨[⟨0⟩], [Ty.fn [] [], Ty.i32], 0⟩ rfl (by decide)

end Zephyr
